import Mathlib

/-!
# Star-referral join panel and userpic-suggestion card

A shallow embedding of

* `Info::BotStarRef::Join::ListController`
  (`info/bot/starref/info_bot_starref_join_widget.cpp`): the paginated list
  controller with its request-in-flight guard, its terminal all-loaded flag,
  the lazy `Resolve` flow and `process`;
* the click handler built by `HistoryView::UserpicSuggestion::createViewLink`
  (`history/view/media/history_view_userpic_suggestion.cpp`).

The controller is a record of its member variables together with the state of
its collaborators (the peer-list delegate, the API sender, the window); every
member function is a function on that record.  Callbacks that the C++ code
hands to the API sender or to a box are functions of their own, run by the
events of `step`.
-/

namespace StarRef

/-! ## Data -/

/-- Peers (users, bots, channels) are identified by the value of their id. -/
abbrev PeerId := Nat

/-- The page size, `constexpr auto kPerPage = 50`. -/
def kPerPage : Int := 50

/-- The two kinds of list, `enum class JoinType`. -/
inductive JoinType where
  | Joined
  | Suggested
deriving DecidableEq, Repr

/-- Modelled from the spec: the program record ("a program-commission/duration
pair") is declared in `info_bot_starref_common.h`, which is not under `src/`.
The fields are the ones the source writes; `commission` is a `ushort` and
`durationMonths` a `uchar` (the source converts with `ushort(..)`, `uchar(..)`),
kept here as natural numbers. -/
structure StarRefProgram where
  commission : Nat := 0
  durationMonths : Nat := 0
deriving DecidableEq, Repr

/-- Modelled from the spec: the per-bot state ("a program-commission/duration
pair, a link string") is declared in `info_bot_starref_common.h`, which is not
under `src/`.  The fields are the ones the source reads and writes; a field the
source leaves out of a designated initialiser is value-initialised. -/
structure ConnectedBotState where
  program : StarRefProgram := {}
  link : String := ""
  unresolved : Bool := false
  revoked : Bool := false
deriving DecidableEq, Repr

/-- A bot together with its state, `ConnectedBot { bot, state }`. -/
structure ConnectedBot where
  bot : PeerId
  state : ConnectedBotState
deriving DecidableEq, Repr

/-- The requests the controller sends, with the arguments the source passes
(`_peer->input` is the same in all of them and is left out). -/
inductive Request where
  /-- Request `MTPpayments_GetConnectedStarRefBots(flags, peer, offset_date,
  offset_link, limit)`. -/
  | getConnectedStarRefBots (fOffsetDate fOffsetLink : Bool)
      (offsetDate : Int) (offsetLink : String) (limit : Int)
  /-- Request `MTPpayments_GetSuggestedStarRefBots(flags, peer, offset, limit)`. -/
  | getSuggestedStarRefBots (fOrderByRevenue : Bool) (offset : String) (limit : Int)
  /-- Request `MTPpayments_GetConnectedStarRefBot(peer, bot)`, sent by `Resolve`. -/
  | getConnectedStarRefBot (bot : PeerId)
deriving DecidableEq, Repr

/-- The boxes `open` shows through `_controller->show`. -/
inductive Box where
  | StarRefLinkBox (bot : PeerId) (state : ConnectedBotState)
  | JoinStarRefBox (bot : PeerId) (state : ConnectedBotState)
deriving DecidableEq, Repr

/-- One entry of `suggested_bots` in a `payments.suggestedStarRefBots` answer:
`bot_id`, `commission_permille` (a 32-bit `int`) and the optional
`duration_months`. -/
structure SuggestedBot where
  bot_id : PeerId
  commission_permille : Int
  duration_months : Option Int
deriving DecidableEq, Repr

/-- The part of a `payments.suggestedStarRefBots` answer the handler reads. -/
structure SuggestedStarRefBots where
  next_offset : Option String
  suggested_bots : List SuggestedBot
deriving DecidableEq, Repr

/-! ## `base::flat_map` and `base::flat_set` -/

/-- Lookup, `_states.find(bot)`. -/
def statesFind : List (PeerId × ConnectedBotState) → PeerId → Option ConnectedBotState
  | [], _ => none
  | (k, v) :: m, b => if k = b then some v else statesFind m b

/-- Insertion that keeps an existing entry, `_states.emplace(bot, state)`. -/
def statesEmplace (m : List (PeerId × ConnectedBotState)) (b : PeerId)
    (s : ConnectedBotState) : List (PeerId × ConnectedBotState) :=
  match statesFind m b with
  | some _ => m
  | none => m ++ [(b, s)]

/-- Assignment through `operator[]`, `_states[bot] = now`. -/
def statesAssign : List (PeerId × ConnectedBotState) → PeerId → ConnectedBotState →
    List (PeerId × ConnectedBotState)
  | [], b, s => [(b, s)]
  | (k, v) :: m, b, s => if k = b then (k, s) :: m else (k, v) :: statesAssign m b s

/-- The value `_states[bot]` refers to: the stored one, or a default-constructed
state when there is none. -/
def statesAt (m : List (PeerId × ConnectedBotState)) (b : PeerId) : ConnectedBotState :=
  (statesFind m b).getD {}

/-! ## The controller -/

/-- The member variables of `ListController`, followed by the state of its
collaborators. -/
structure ListController where
  /-- Member `const JoinType _type`. -/
  type : JoinType
  /-- Member `base::flat_map<not_null<PeerData*>, ConnectedBotState> _states`. -/
  states : List (PeerId × ConnectedBotState) := []
  /-- Member `base::flat_set<not_null<PeerData*>> _resolving`. -/
  resolving : List PeerId := []
  /-- Member `UserData *_openOnResolve = nullptr`. -/
  openOnResolve : Option PeerId := none
  /-- Member `mtpRequestId _requestId = 0`. -/
  requestId : Nat := 0
  /-- Member `TimeId _offsetDate = 0`. -/
  offsetDate : Int := 0
  /-- Member `QString _offsetThing`. -/
  offsetThing : String := ""
  /-- Member `bool _allLoaded = false`. -/
  allLoaded : Bool := false
  /-- Member `rpl::variable<int> _rowCount = 0`. -/
  rowCount : Int := 0
  /-- The events fired on `rpl::event_stream<ConnectedBot> _connected`, oldest first. -/
  connected : List ConnectedBot := []
  /-- Delegate: the ids of the rows of the list, first row first. -/
  rows : List PeerId := []
  /-- API sender: the id handed out by the last `send()`. -/
  lastRequestId : Nat := 0
  /-- API sender: the page requests sent and not yet answered, with their ids. -/
  inFlight : List (Nat × Request) := []
  /-- API sender: the bots with a `Resolve` request sent and not yet answered. -/
  resolveInFlight : List PeerId := []
  /-- API sender: every request sent so far, oldest first. -/
  sent : List Request := []
  /-- Window: every box shown so far, oldest first. -/
  shown : List Box := []
deriving DecidableEq, Repr

/-- The controller right after construction. -/
def ListController.init (type : JoinType) : ListController := { type := type }

/-- Modelled from the spec: the API sender (`apiwrap.h`, `mtproto/sender.h`) is
not under `src/`.  `request(..).send()` hands out a fresh non-zero request id
and the request stays in flight until its `done` or `fail` callback has run
("issue one request, wait for one callback").  This is `send()` for a page
request. -/
def ListController.apiSend (c : ListController) (r : Request) : ListController × Nat :=
  ({ c with
      lastRequestId := c.lastRequestId + 1
      inFlight := c.inFlight ++ [(c.lastRequestId + 1, r)]
      sent := c.sent ++ [r] },
   c.lastRequestId + 1)

/-- The request sent by the free function `Resolve(peer, bot, done)`; its
callbacks are `Resolve` below.  The API sender is modelled as in `apiSend`. -/
def ListController.sendResolve (c : ListController) (bot : PeerId) : ListController :=
  { c with
      lastRequestId := c.lastRequestId + 1
      resolveInFlight := c.resolveInFlight ++ [bot]
      sent := c.sent ++ [Request.getConnectedStarRefBot bot] }

/-- Modelled from the spec: the peer-list delegate (`boxes/peer_list_box.h`) is
not under `src/`.  The list is a sequence of rows ("a paginated row list");
`peerListAppendRow` puts a row at its end. -/
def ListController.peerListAppendRow (c : ListController) (row : PeerId) : ListController :=
  { c with rows := c.rows ++ [row] }

/-- Modelled from the spec: the peer-list delegate (`boxes/peer_list_box.h`) is
not under `src/`.  `peerListPrependRow` puts a row at the front of the list. -/
def ListController.peerListPrependRow (c : ListController) (row : PeerId) : ListController :=
  { c with rows := row :: c.rows }

/-- Modelled from the spec: the peer-list delegate (`boxes/peer_list_box.h`) is
not under `src/`.  `peerListFindRow(id)` tells whether the list holds a row
with that id. -/
def ListController.peerListFindRow (c : ListController) (id : PeerId) : Bool :=
  decide (id ∈ c.rows)

/-- Modelled from the spec: the peer-list delegate (`boxes/peer_list_box.h`) is
not under `src/`.  `peerListFullRowsCount()` is the number of rows of the list. -/
def ListController.peerListFullRowsCount (c : ListController) : Int :=
  (c.rows.length : Int)

/-- Member function `ListController::createRow`: records the state of the bot with `emplace`
(an existing entry is kept) and makes the row of the bot.  The status text of
the row is display only and is left out: a row is its id. -/
def ListController.createRow (c : ListController) (bot : ConnectedBot) :
    ListController × PeerId :=
  ({ c with states := statesEmplace c.states bot.bot bot.state }, bot.bot)

/-- The statement `delegate()->peerListAppendRow(createRow(bot))`. -/
def ListController.appendCreated (c : ListController) (bot : ConnectedBot) : ListController :=
  let r := c.createRow bot
  r.1.peerListAppendRow r.2

/-- The request of the `Joined` branch of `loadMoreRows`. -/
def ListController.joinedRequest (c : ListController) : Request :=
  Request.getConnectedStarRefBots
    (decide (c.offsetDate ≠ 0))
    (!c.offsetThing.isEmpty)
    c.offsetDate
    c.offsetThing
    kPerPage

/-- The request of the `Suggested` branch of `loadMoreRows`. -/
def ListController.suggestedRequest (c : ListController) : Request :=
  Request.getSuggestedStarRefBots true c.offsetThing kPerPage

/-- Member function `ListController::loadMoreRows`. -/
def ListController.loadMoreRows (c : ListController) : ListController :=
  if c.requestId ≠ 0 ∨ c.allLoaded = true then
    c
  else if c.type = JoinType.Joined then
    let r := c.apiSend c.joinedRequest
    { r.1 with requestId := r.2 }
  else
    let r := c.apiSend c.suggestedRequest
    { r.1 with requestId := r.2 }

/-- Member function `ListController::prepare`: sets the title (display only) and loads the
first page. -/
def ListController.prepare (c : ListController) : ListController :=
  c.loadMoreRows

/-- The `done` callback of the `Joined` request; `parsed` is the value of
`Parse(&session(), result)`. -/
def ListController.joinedDone (c : ListController) (parsed : List ConnectedBot) :
    ListController :=
  let c1 :=
    if parsed.isEmpty then
      { c with allLoaded := true }
    else
      let c2 := parsed.foldl ListController.appendCreated c
      { c2 with rowCount := c2.peerListFullRowsCount }
  { c1 with requestId := 0 }

/-- The `fail` callback of the `Joined` request. -/
def ListController.joinedFail (c : ListController) : ListController :=
  { c with requestId := 0 }

/-- Conversion of an `int` to `ushort`. -/
def toUShort (x : Int) : Nat := (x % 65536).toNat

/-- Conversion of an `int` to `uchar`. -/
def toUChar (x : Int) : Nat := (x % 256).toNat

/-- The `ConnectedBot` the `Suggested` handler builds for one entry of the
answer. -/
def suggestedRow (bot : SuggestedBot) : ConnectedBot :=
  let commission := bot.commission_permille
  let durationMonths := bot.duration_months.getD 0
  { bot := bot.bot_id
    state :=
      { program :=
          { commission := toUShort commission
            durationMonths := toUChar durationMonths }
        unresolved := true } }

/-- The `done` callback of the `Suggested` request. -/
def ListController.suggestedDone (c : ListController) (data : SuggestedStarRefBots) :
    ListController :=
  let c1 :=
    match data.next_offset with
    | some offset => { c with offsetThing := offset }
    | none => { c with allLoaded := true }
  let c2 := data.suggested_bots.foldl
    (fun acc bot => acc.appendCreated (suggestedRow bot)) c1
  { c2 with rowCount := c2.peerListFullRowsCount, requestId := 0 }

/-- The `fail` callback of the `Suggested` request. -/
def ListController.suggestedFail (c : ListController) : ListController :=
  { c with allLoaded := true, requestId := 0 }

/-- Member function `ListController::process`. -/
def ListController.process (c : ListController) (row : ConnectedBot) : ListController :=
  if !c.peerListFindRow row.bot then
    let r := c.createRow row
    r.1.peerListPrependRow r.2
  else
    c

/-- Member function `ListController::open` (the name is a keyword here). -/
def ListController.openBox (c : ListController) (bot : PeerId) (state : ConnectedBotState) :
    ListController :=
  if c.type = JoinType.Joined ∨ !state.link.isEmpty then
    { c with shown := c.shown ++ [Box.StarRefLinkBox bot state] }
  else
    { c with shown := c.shown ++ [Box.JoinStarRefBox bot state] }

/-- The callback `connected` that `open` hands to `JoinStarRefBox`. -/
def ListController.joinConnected (c : ListController) (bot : PeerId)
    (now : ConnectedBotState) : ListController :=
  { c with
      states := statesAssign c.states bot now
      connected := c.connected ++ [{ bot := bot, state := now }] }

/-- The answer `Resolve` passes to `done`: `parsed` is `none` when the request
failed and the parsed answer otherwise. -/
def Resolve (parsed : Option (List ConnectedBot)) : Option ConnectedBotState :=
  match parsed with
  | none => none
  | some [] => none
  | some (front :: _) => some front.state

/-- The callback `resolved` that `rowClicked` hands to `Resolve`: first
`_resolving.remove(bot)`; then `auto &now = _states[bot]`, which makes a
default entry when there is none, and `now = *state` when a state came; then
`open(bot, now)` when `_openOnResolve == bot`. -/
def ListController.resolved (c : ListController) (bot : PeerId)
    (state : Option ConnectedBotState) : ListController :=
  let c1 := { c with resolving := c.resolving.filter (fun b => b ≠ bot) }
  let c2 :=
    match state with
    | some s => { c1 with states := statesAssign c1.states bot s }
    | none => { c1 with states := statesAssign c1.states bot (statesAt c1.states bot) }
  let now := statesAt c2.states bot
  if c2.openOnResolve = some bot then c2.openBox bot now else c2

/-- Member function `ListController::rowClicked` for the row of `bot`; `none`
when the assertion `i != end(_states)` fails. -/
def ListController.rowClicked (c : ListController) (bot : PeerId) : Option ListController :=
  match statesFind c.states bot with
  | none => none
  | some st =>
    if st.unresolved then
      if bot ∈ c.resolving then
        some c
      else
        let c1 := { c with resolving := c.resolving ++ [bot], openOnResolve := some bot }
        some (c1.sendResolve bot)
    else
      some ({ c with openOnResolve := none }.openBox bot st)

/-! ## The controller and its environment -/

/-- What the server answers to a page request. -/
inductive PageAnswer where
  /-- Answer `payments.connectedStarRefBots`, given by its `Parse`d value. -/
  | connectedStarRefBots (parsed : List ConnectedBot)
  /-- Answer `payments.suggestedStarRefBots`. -/
  | suggestedStarRefBots (data : SuggestedStarRefBots)
  /-- An `MTP::Error`. -/
  | error
deriving DecidableEq, Repr

/-- What can happen to a controller: the member functions called by the
framework and the panel, and the callbacks run by the API sender and by the
join box. -/
inductive Event where
  | prepare
  | loadMoreRows
  /-- The page request with this id is answered: its `done` or `fail` runs. -/
  | pageAnswered (id : Nat) (answer : PageAnswer)
  /-- The row of this bot is clicked. -/
  | rowClicked (bot : PeerId)
  /-- The `Resolve` request for this bot is answered; `none` is a failure. -/
  | resolveAnswered (bot : PeerId) (parsed : Option (List ConnectedBot))
  | process (row : ConnectedBot)
  /-- The join box shown for this bot reports success with a new state. -/
  | joinConnected (bot : PeerId) (now : ConnectedBotState)
deriving DecidableEq, Repr

/-- The callbacks of the page request in flight with id `id`. -/
def ListController.pageAnswered (c : ListController) (id : Nat) (answer : PageAnswer) :
    Option ListController :=
  match c.inFlight.find? (fun p => p.1 = id) with
  | none => none
  | some p =>
    let c1 := { c with inFlight := c.inFlight.erase p }
    match c.type, answer with
    | JoinType.Joined, PageAnswer.connectedStarRefBots parsed => some (c1.joinedDone parsed)
    | JoinType.Joined, PageAnswer.error => some c1.joinedFail
    | JoinType.Suggested, PageAnswer.suggestedStarRefBots data => some (c1.suggestedDone data)
    | JoinType.Suggested, PageAnswer.error => some c1.suggestedFail
    | _, _ => none

/-- The callbacks of the `Resolve` request in flight for `bot`. -/
def ListController.resolveAnswered (c : ListController) (bot : PeerId)
    (parsed : Option (List ConnectedBot)) : Option ListController :=
  if bot ∈ c.resolveInFlight then
    some ({ c with resolveInFlight := c.resolveInFlight.erase bot }.resolved bot (Resolve parsed))
  else
    none

/-- Whether a join box has been shown for `bot`. -/
def ListController.joinBoxShown (c : ListController) (bot : PeerId) : Bool :=
  c.shown.any fun b =>
    match b with
    | Box.JoinStarRefBox b0 _ => decide (b0 = bot)
    | Box.StarRefLinkBox _ _ => false

/-- One event; `none` when the event cannot happen in this state (no such
request in flight, no such row, no such box) or an assertion fails. -/
def step (c : ListController) : Event → Option ListController
  | Event.prepare => some c.prepare
  | Event.loadMoreRows => some c.loadMoreRows
  | Event.pageAnswered id answer => c.pageAnswered id answer
  | Event.rowClicked bot => if bot ∈ c.rows then c.rowClicked bot else none
  | Event.resolveAnswered bot parsed => c.resolveAnswered bot parsed
  | Event.process row => some (c.process row)
  | Event.joinConnected bot now =>
    if c.joinBoxShown bot then some (c.joinConnected bot now) else none

/-- A sequence of events, one after the other. -/
def run (c : ListController) : List Event → Option ListController
  | [] => some c
  | e :: es =>
    match step c e with
    | none => none
    | some c1 => run c1 es

/-- The states a controller of the given type can be in. -/
def Reachable (type : JoinType) (c : ListController) : Prop :=
  ∃ es : List Event, run (ListController.init type) es = some c

/-! ## The context menu, the panel and `Allowed` -/

/-- The entries `rowContextMenu` adds to the menu of a row. -/
inductive MenuAction where
  /-- Entry "open": `_controller->showPeerHistory(bot)`. -/
  | showPeerHistory (bot : PeerId)
  /-- Entry "copy link": puts `state.link` on the clipboard. -/
  | copyLink (link : String)
  /-- Entry "leave": asks and then calls `RevokeLink(_controller, _peer, link)`. -/
  | revokeLink (bot : PeerId) (link : String)
deriving DecidableEq, Repr

/-- Member function `ListController::rowContextMenu` for the row of `bot`, as
the entries of the menu it returns; `none` when the assertion
`i != end(_states)` fails. -/
def ListController.rowContextMenu (c : ListController) (bot : PeerId) :
    Option (List MenuAction) :=
  match statesFind c.states bot with
  | none => none
  | some state =>
    if !state.link.isEmpty then
      some [MenuAction.showPeerHistory bot, MenuAction.copyLink state.link,
        MenuAction.revokeLink bot state.link]
    else
      some [MenuAction.showPeerHistory bot]

/-- The two list controllers of `InnerWidget`: `_my`, made by `setupMy` with
`JoinType::Joined`, and the one made by `setupSuggested` with
`JoinType::Suggested`. -/
structure InnerWidget where
  my : ListController
  suggested : ListController
deriving DecidableEq, Repr

/-- The panel right after `InnerWidget::prepare` has made its controllers. -/
def InnerWidget.init : InnerWidget :=
  { my := ListController.init JoinType.Joined
    suggested := ListController.init JoinType.Suggested }

/-- Whether the "my programs" section is shown: `setupMy` toggles its wrap on
`controller->rowCountValue() | rpl::map(rpl::mappers::_1 > 0)`. -/
def InnerWidget.myShown (w : InnerWidget) : Bool :=
  decide (w.my.rowCount > 0)

/-- An event of the `_my` controller. -/
def InnerWidget.myEvent (w : InnerWidget) (e : Event) : Option InnerWidget :=
  match step w.my e with
  | none => none
  | some m => some { w with my := m }

/-- An event of the suggested controller.  `setupSuggested` subscribes to
`controller->connected()` with `_my->process(row)`: every `ConnectedBot` fired
during the event is handed to `process` of `_my`. -/
def InnerWidget.suggestedEvent (w : InnerWidget) (e : Event) : Option InnerWidget :=
  match step w.suggested e with
  | none => none
  | some s =>
    some
      { my := (s.connected.drop w.suggested.connected.length).foldl
          ListController.process w.my
        suggested := s }

/-- What can happen to the panel: an event of one of its two controllers. -/
inductive PanelEvent where
  | my (e : Event)
  | suggested (e : Event)
deriving DecidableEq, Repr

/-- One event of the panel. -/
def InnerWidget.step (w : InnerWidget) : PanelEvent → Option InnerWidget
  | PanelEvent.my e => w.myEvent e
  | PanelEvent.suggested e => w.suggestedEvent e

/-- A sequence of events of the panel, one after the other. -/
def InnerWidget.run (w : InnerWidget) : List PanelEvent → Option InnerWidget
  | [] => some w
  | e :: es =>
    match w.step e with
    | none => none
    | some w1 => InnerWidget.run w1 es

/-- Modelled from the spec: `PeerData`, `UserData` and `ChannelData`
(`data/data_peer.h`, `data/data_user.h`, `data/data_channel.h`) are not under
`src/`.  A peer is a user, a basic group or a channel ("bots and channels");
the fields are the values `Allowed` reads: `user->isSelf()`, `user->isBot()`
and `user->botInfo->canEditInformation` (read only for a bot),
`channel->isBroadcast()` and `channel->canPostMessages()`. -/
inductive PeerData where
  | user (isSelf isBot canEditInformation : Bool)
  | chat
  | channel (isBroadcast canPostMessages : Bool)
deriving DecidableEq, Repr

/-- Function `Allowed(peer)`; `starrefJoinAllowed` is the value of
`peer->session().appConfig().starrefJoinAllowed()`. -/
def Allowed (starrefJoinAllowed : Bool) (peer : PeerData) : Bool :=
  if !starrefJoinAllowed then
    false
  else
    match peer with
    | PeerData.user isSelf isBot canEditInformation =>
      isSelf || (isBot && canEditInformation)
    | PeerData.channel isBroadcast canPostMessages =>
      isBroadcast && canPostMessages
    | PeerData.chat => false

/-! ## Notions used in the statements -/

/-- The page request `loadMoreRows` sends in this state. -/
def ListController.pageRequest (c : ListController) : Request :=
  if c.type = JoinType.Joined then c.joinedRequest else c.suggestedRequest

/-- Whether a request is a page request (and not a `Resolve` request). -/
def Request.isPage : Request → Bool
  | Request.getConnectedStarRefBots _ _ _ _ _ => true
  | Request.getSuggestedStarRefBots _ _ _ => true
  | Request.getConnectedStarRefBot _ => false

/-- The invariant of the page-request bookkeeping: the request in flight, if
any, is the one `_requestId` names and the one `loadMoreRows` would send; and
nothing is in flight once everything is loaded. -/
structure PageInv (type : JoinType) (c : ListController) : Prop where
  type_eq : c.type = type
  inFlight_eq :
    c.inFlight = if c.requestId = 0 then [] else [(c.requestId, c.pageRequest)]
  loaded : c.allLoaded = true → c.requestId = 0

/-- The page bookkeeping of two states is the same. -/
structure SamePage (c c1 : ListController) : Prop where
  type_eq : c1.type = c.type
  requestId_eq : c1.requestId = c.requestId
  offsetDate_eq : c1.offsetDate = c.offsetDate
  offsetThing_eq : c1.offsetThing = c.offsetThing
  allLoaded_eq : c1.allLoaded = c.allLoaded
  inFlight_eq : c1.inFlight = c.inFlight
  rowCount_eq : c1.rowCount = c.rowCount

/-- The rows and the page requests sent so far are the same in two states. -/
structure SameList (c c1 : ListController) : Prop where
  rows_eq : c1.rows = c.rows
  pageSent_eq : c1.sent.filter Request.isPage = c.sent.filter Request.isPage

/-- The box `open` shows for a bot and a state in a list of the given type. -/
def boxFor (type : JoinType) (bot : PeerId) (state : ConnectedBotState) : Box :=
  if type = JoinType.Joined ∨ (!state.link.isEmpty) = true then
    Box.StarRefLinkBox bot state
  else
    Box.JoinStarRefBox bot state

/-- The members of the lazy resolution are the same in two states. -/
structure SameResolve (c c1 : ListController) : Prop where
  resolving_eq : c1.resolving = c.resolving
  resolveInFlight_eq : c1.resolveInFlight = c.resolveInFlight
  openOnResolve_eq : c1.openOnResolve = c.openOnResolve

/-- The invariant of the lazy resolution: no bot has two `Resolve` requests in
flight, a bot with a request in flight is in `_resolving`, and if the bot
`_openOnResolve` names has a request in flight, it is the one sent last. -/
structure ResolveInv (c : ListController) : Prop where
  nodup : c.resolveInFlight.Nodup
  sub : ∀ b ∈ c.resolveInFlight, b ∈ c.resolving
  last : ∀ b, c.openOnResolve = some b → b ∈ c.resolveInFlight →
    c.resolveInFlight.getLast? = some b

/-- Every row of the list has a state stored for its bot. -/
def RowsHaveStates (c : ListController) : Prop :=
  ∀ b ∈ c.rows, (statesFind c.states b).isSome = true

/-- No stored state is erased between two states. -/
def StatesKept (c c1 : ListController) : Prop :=
  ∀ b, (statesFind c.states b).isSome = true → (statesFind c1.states b).isSome = true

/-- The `connected` events an event fires: one for a success reported by the
join box, none otherwise. -/
def Event.fired : Event → List ConnectedBot
  | Event.joinConnected bot now => [{ bot := bot, state := now }]
  | _ => []

/-- The bot whose row an event clicks, if the event is a click. -/
def Event.clickedRow : Event → Option PeerId
  | Event.rowClicked b => some b
  | _ => none

/-! ## Example runs -/

/-- The events of a `Suggested` controller whose first page is the last one:
it holds one bot and no `next_offset`. -/
def exLastPageEvents : List Event :=
  [Event.prepare,
   Event.pageAnswered 1 (PageAnswer.suggestedStarRefBots
     { next_offset := none
       suggested_bots := [{ bot_id := 1, commission_permille := 100, duration_months := none }] })]

/-- The state after `exLastPageEvents`. -/
def exLastPage : ListController :=
  (run (ListController.init JoinType.Suggested) exLastPageEvents).getD
    (ListController.init JoinType.Suggested)

/-- A first page of suggested bots that names a next page. -/
def exFirstPage : SuggestedStarRefBots :=
  { next_offset := some "page2"
    suggested_bots :=
      [{ bot_id := 1, commission_permille := 100, duration_months := none },
       { bot_id := 2, commission_permille := 250, duration_months := some 12 }] }

/-- A non-empty first page of joined programs. -/
def exJoinedPage : List ConnectedBot :=
  [{ bot := 7, state := { program := { commission := 100, durationMonths := 6 },
                          link := "t.me/bot7?start=ref" } },
   { bot := 8, state := { program := { commission := 50, durationMonths := 0 },
                          link := "t.me/bot8?start=ref" } }]

/-- The events of a `Suggested` controller that has loaded `exFirstPage`
(bots 1 and 2, both unresolved). -/
def exLoadedEvents : List Event :=
  [Event.prepare, Event.pageAnswered 1 (PageAnswer.suggestedStarRefBots exFirstPage)]

/-- The state after `exLoadedEvents`. -/
def exLoaded : ListController :=
  (run (ListController.init JoinType.Suggested) exLoadedEvents).getD
    (ListController.init JoinType.Suggested)

/-- The state a join box reports for a bot that has just been joined. -/
def exJoinedState : ConnectedBotState :=
  { program := { commission := 100, durationMonths := 0 }
    link := "t.me/bot1?start=ref" }

/-- The events of a panel in which the account has no program yet and joins
the suggested bot 1: both lists load their first page (the one of "my
programs" is empty), the row of bot 1 is clicked, its `Resolve` request finds
nothing, the join box is shown and reports success with `exJoinedState`. -/
def exJoinEvents : List PanelEvent :=
  [PanelEvent.my Event.prepare,
   PanelEvent.my (Event.pageAnswered 1 (PageAnswer.connectedStarRefBots [])),
   PanelEvent.suggested Event.prepare,
   PanelEvent.suggested (Event.pageAnswered 1 (PageAnswer.suggestedStarRefBots exFirstPage)),
   PanelEvent.suggested (Event.rowClicked 1),
   PanelEvent.suggested (Event.resolveAnswered 1 (some [])),
   PanelEvent.suggested (Event.joinConnected 1 exJoinedState)]

/-- The panel of `exJoinEvents` just before the join box reports success. -/
def exBeforeJoin : InnerWidget :=
  (InnerWidget.run InnerWidget.init (exJoinEvents.take 6)).getD InnerWidget.init

/-- The panel after all of `exJoinEvents`. -/
def exAfterJoin : InnerWidget :=
  (InnerWidget.run InnerWidget.init exJoinEvents).getD InnerWidget.init

/-- The events of a `Joined` controller that has loaded `exJoinedPage` and had
the row of bot 7 clicked. -/
def exJoinedClickedEvents : List Event :=
  [Event.prepare,
   Event.pageAnswered 1 (PageAnswer.connectedStarRefBots exJoinedPage),
   Event.rowClicked 7]

/-- The state after `exJoinedClickedEvents`. -/
def exJoinedClicked : ListController :=
  (run (ListController.init JoinType.Joined) exJoinedClickedEvents).getD
    (ListController.init JoinType.Joined)

end StarRef

namespace HistoryView

/-! ## The userpic-suggestion card -/

/-- What the click handler of the card reads when it runs. -/
structure ClickContext where
  /-- Whether `my.sessionWindow.get()` is a window (not null). -/
  sessionWindow : Bool
  /-- Value of `photo->activeMediaView()->loaded()`. -/
  mediaLoaded : Bool
  /-- Value of `photo->loading()`. -/
  photoLoading : Bool
deriving DecidableEq, Repr

/-- What the click handler of the card does. -/
inductive ClickEffect where
  /-- No statement is run. -/
  | nothing
  /-- Statement `PhotoOpenClickHandler(photo, show, itemId).onClick(context)`. -/
  | photoOpen
  /-- Statement `ShowUserpicSuggestion(controller, media, itemId, peer)`. -/
  | showUserpicSuggestion
  /-- Statement `PhotoSaveClickHandler(photo, itemId).onClick(context)`. -/
  | photoSave
deriving DecidableEq, Repr

/-- Member function `UserpicSuggestion::createViewLink`: `out` is read from
the message when the link is made, the rest when the handler runs. -/
def UserpicSuggestion.createViewLink (out : Bool) : ClickContext → ClickEffect :=
  fun context =>
    if context.sessionWindow then
      if context.mediaLoaded then
        if out then
          ClickEffect.photoOpen
        else
          ClickEffect.showUserpicSuggestion
      else if !context.photoLoading then
        ClickEffect.photoSave
      else
        ClickEffect.nothing
    else
      ClickEffect.nothing

end HistoryView

namespace StarRef

/-! ## Basic facts about the operations -/

theorem appendCreated_eq (c : ListController) (bot : ConnectedBot) :
    c.appendCreated bot =
      { c with
          states := statesEmplace c.states bot.bot bot.state
          rows := c.rows ++ [bot.bot] } := rfl

theorem foldl_appendCreated (l : List ConnectedBot) (c : ListController) :
    l.foldl ListController.appendCreated c =
      { c with
          states := l.foldl (fun m b => statesEmplace m b.bot b.state) c.states
          rows := c.rows ++ l.map (fun b => b.bot) } := by
  induction l generalizing c with
  | nil => simp
  | cons b l ih => simp [List.foldl_cons, ih, appendCreated_eq]

theorem foldl_appendCreated_suggested (l : List SuggestedBot) (c : ListController) :
    l.foldl (fun acc bot => acc.appendCreated (suggestedRow bot)) c =
      { c with
          states := (l.map suggestedRow).foldl
            (fun m b => statesEmplace m b.bot b.state) c.states
          rows := c.rows ++ l.map (fun b => b.bot_id) } := by
  have h := foldl_appendCreated (l.map suggestedRow) c
  rw [List.foldl_map] at h
  rw [h]
  simp [List.map_map, Function.comp_def, suggestedRow]

theorem joinedDone_eq (c : ListController) (parsed : List ConnectedBot) :
    c.joinedDone parsed =
      if parsed = [] then { c with allLoaded := true, requestId := 0 }
      else
        { c with
            states := parsed.foldl (fun m b => statesEmplace m b.bot b.state) c.states
            rows := c.rows ++ parsed.map (fun b => b.bot)
            rowCount := ((c.rows ++ parsed.map (fun b => b.bot)).length : Int)
            requestId := 0 } := by
  unfold ListController.joinedDone
  cases parsed with
  | nil => simp
  | cons b l =>
    simp only [List.isEmpty_cons, Bool.false_eq_true, if_false, foldl_appendCreated,
      ListController.peerListFullRowsCount]
    simp

theorem suggestedDone_eq (c : ListController) (data : SuggestedStarRefBots) :
    c.suggestedDone data =
      { c with
          offsetThing := data.next_offset.getD c.offsetThing
          allLoaded := c.allLoaded || data.next_offset.isNone
          states := (data.suggested_bots.map suggestedRow).foldl
            (fun m b => statesEmplace m b.bot b.state) c.states
          rows := c.rows ++ data.suggested_bots.map (fun b => b.bot_id)
          rowCount := ((c.rows ++ data.suggested_bots.map (fun b => b.bot_id)).length : Int)
          requestId := 0 } := by
  unfold ListController.suggestedDone
  cases h : data.next_offset with
  | none =>
    simp only [foldl_appendCreated_suggested, ListController.peerListFullRowsCount]
    simp
  | some o =>
    simp only [foldl_appendCreated_suggested, ListController.peerListFullRowsCount]
    simp

/-! ## The request-in-flight guard -/

theorem pageInv_init (type : JoinType) : PageInv type (ListController.init type) :=
  ⟨rfl, rfl, fun _ => rfl⟩

theorem loadMoreRows_of_busy (c : ListController)
    (h : c.requestId ≠ 0 ∨ c.allLoaded = true) : c.loadMoreRows = c := by
  unfold ListController.loadMoreRows
  rw [if_pos h]

theorem loadMoreRows_of_idle (c : ListController)
    (h1 : c.requestId = 0) (h2 : c.allLoaded = false) :
    c.loadMoreRows =
      { c with
          requestId := c.lastRequestId + 1
          lastRequestId := c.lastRequestId + 1
          inFlight := c.inFlight ++ [(c.lastRequestId + 1, c.pageRequest)]
          sent := c.sent ++ [c.pageRequest] } := by
  unfold ListController.loadMoreRows ListController.pageRequest ListController.apiSend
  have h : ¬ (c.requestId ≠ 0 ∨ c.allLoaded = true) := by simp [h1, h2]
  rw [if_neg h]
  by_cases ht : c.type = JoinType.Joined <;> simp [ht]

theorem pageInv_loadMoreRows {type : JoinType} {c : ListController}
    (h : PageInv type c) : PageInv type c.loadMoreRows := by
  by_cases hb : c.requestId ≠ 0 ∨ c.allLoaded = true
  · rw [loadMoreRows_of_busy c hb]; exact h
  · have h1 : c.requestId = 0 := by
      by_contra hne; exact hb (Or.inl hne)
    have h2 : c.allLoaded = false := by
      cases hl : c.allLoaded with
      | false => rfl
      | true => exact absurd (Or.inr hl) hb
    rw [loadMoreRows_of_idle c h1 h2]
    have hi := h.inFlight_eq
    rw [if_pos h1] at hi
    refine ⟨h.type_eq, ?_, ?_⟩
    · simp [hi, ListController.pageRequest, ListController.joinedRequest,
        ListController.suggestedRequest]
    · intro hl
      simp [h2] at hl

theorem pageAnswered_some {type : JoinType} {c c1 : ListController} {id : Nat}
    {answer : PageAnswer} (h : PageInv type c) (hs : c.pageAnswered id answer = some c1) :
    c.requestId = id ∧ id ≠ 0 ∧ c.allLoaded = false ∧
    c.inFlight = [(id, c.pageRequest)] ∧
    ((type = JoinType.Joined ∧
        ((∃ parsed, answer = PageAnswer.connectedStarRefBots parsed ∧
            c1 = { c with inFlight := [] }.joinedDone parsed) ∨
         (answer = PageAnswer.error ∧ c1 = { c with inFlight := [] }.joinedFail))) ∨
     (type = JoinType.Suggested ∧
        ((∃ data, answer = PageAnswer.suggestedStarRefBots data ∧
            c1 = { c with inFlight := [] }.suggestedDone data) ∨
         (answer = PageAnswer.error ∧ c1 = { c with inFlight := [] }.suggestedFail)))) := by
  have hi := h.inFlight_eq
  have ht := h.type_eq
  unfold ListController.pageAnswered at hs
  by_cases h0 : c.requestId = 0
  · rw [if_pos h0] at hi
    simp [hi] at hs
  · rw [if_neg h0] at hi
    have hl : c.allLoaded = false := by
      cases hl : c.allLoaded with
      | false => rfl
      | true => exact absurd (h.loaded hl) h0
    by_cases hid : c.requestId = id
    · subst hid
      refine ⟨rfl, h0, hl, hi, ?_⟩
      simp only [hi, List.find?_cons, decide_True, List.erase_cons_head] at hs
      cases type <;> cases answer <;> simp_all
    · simp [hi, hid] at hs

theorem pageInv_pageAnswered {type : JoinType} {c c1 : ListController} {id : Nat}
    {answer : PageAnswer} (h : PageInv type c) (hs : c.pageAnswered id answer = some c1) :
    PageInv type c1 := by
  obtain ⟨_, _, hl, _, hc⟩ := pageAnswered_some h hs
  have ht := h.type_eq
  rcases hc with ⟨_, ⟨parsed, _, rfl⟩ | ⟨_, rfl⟩⟩ | ⟨_, ⟨data, _, rfl⟩ | ⟨_, rfl⟩⟩
  · rw [joinedDone_eq]
    by_cases hp : parsed = [] <;> simp [hp] <;> exact ⟨ht, rfl, fun _ => rfl⟩
  · exact ⟨ht, rfl, fun _ => rfl⟩
  · rw [suggestedDone_eq]
    exact ⟨ht, rfl, fun _ => rfl⟩
  · exact ⟨ht, rfl, fun _ => rfl⟩

theorem samePage_refl (c : ListController) : SamePage c c :=
  ⟨rfl, rfl, rfl, rfl, rfl, rfl, rfl⟩

theorem samePage_process (c : ListController) (row : ConnectedBot) :
    SamePage c (c.process row) := by
  unfold ListController.process
  by_cases h : (!c.peerListFindRow row.bot) = true
  · rw [if_pos h]; exact ⟨rfl, rfl, rfl, rfl, rfl, rfl, rfl⟩
  · rw [if_neg h]; exact samePage_refl c

theorem samePage_openBox (c : ListController) (bot : PeerId) (state : ConnectedBotState) :
    SamePage c (c.openBox bot state) := by
  unfold ListController.openBox
  split <;> exact ⟨rfl, rfl, rfl, rfl, rfl, rfl, rfl⟩

theorem samePage_joinConnected (c : ListController) (bot : PeerId) (now : ConnectedBotState) :
    SamePage c (c.joinConnected bot now) :=
  ⟨rfl, rfl, rfl, rfl, rfl, rfl, rfl⟩

theorem samePage_trans {a b c : ListController} (h1 : SamePage a b) (h2 : SamePage b c) :
    SamePage a c :=
  ⟨h2.type_eq.trans h1.type_eq, h2.requestId_eq.trans h1.requestId_eq,
   h2.offsetDate_eq.trans h1.offsetDate_eq, h2.offsetThing_eq.trans h1.offsetThing_eq,
   h2.allLoaded_eq.trans h1.allLoaded_eq, h2.inFlight_eq.trans h1.inFlight_eq,
   h2.rowCount_eq.trans h1.rowCount_eq⟩

theorem samePage_resolved (c : ListController) (bot : PeerId)
    (state : Option ConnectedBotState) : SamePage c (c.resolved bot state) := by
  unfold ListController.resolved
  cases state with
  | none =>
    simp only
    split
    · exact samePage_trans (b := _) (by exact ⟨rfl, rfl, rfl, rfl, rfl, rfl, rfl⟩)
        (samePage_openBox _ _ _)
    · exact ⟨rfl, rfl, rfl, rfl, rfl, rfl, rfl⟩
  | some s =>
    simp only
    split
    · exact samePage_trans (b := _) (by exact ⟨rfl, rfl, rfl, rfl, rfl, rfl, rfl⟩)
        (samePage_openBox _ _ _)
    · exact ⟨rfl, rfl, rfl, rfl, rfl, rfl, rfl⟩

theorem samePage_rowClicked {c c1 : ListController} {bot : PeerId}
    (h : c.rowClicked bot = some c1) : SamePage c c1 := by
  unfold ListController.rowClicked at h
  cases hf : statesFind c.states bot with
  | none => simp [hf] at h
  | some st =>
    simp only [hf] at h
    by_cases hu : st.unresolved = true
    · rw [if_pos hu] at h
      by_cases hr : bot ∈ c.resolving
      · rw [if_pos hr] at h
        cases h
        exact samePage_refl c
      · rw [if_neg hr] at h
        cases h
        exact ⟨rfl, rfl, rfl, rfl, rfl, rfl, rfl⟩
    · rw [if_neg hu] at h
      cases h
      exact samePage_trans (b := _) (by exact ⟨rfl, rfl, rfl, rfl, rfl, rfl, rfl⟩)
        (samePage_openBox _ _ _)

theorem samePage_resolveAnswered {c c1 : ListController} {bot : PeerId}
    {parsed : Option (List ConnectedBot)} (h : c.resolveAnswered bot parsed = some c1) :
    SamePage c c1 := by
  unfold ListController.resolveAnswered at h
  by_cases hb : bot ∈ c.resolveInFlight
  · rw [if_pos hb] at h
    cases h
    exact samePage_trans (b := _) (by exact ⟨rfl, rfl, rfl, rfl, rfl, rfl, rfl⟩)
      (samePage_resolved _ _ _)
  · rw [if_neg hb] at h
    cases h

theorem pageInv_of_samePage {type : JoinType} {c c1 : ListController}
    (h : PageInv type c) (hs : SamePage c c1) : PageInv type c1 := by
  have hp : c1.pageRequest = c.pageRequest := by
    simp [ListController.pageRequest, ListController.joinedRequest,
      ListController.suggestedRequest, hs.type_eq, hs.offsetDate_eq, hs.offsetThing_eq]
  refine ⟨hs.type_eq.trans h.type_eq, ?_, ?_⟩
  · rw [hs.inFlight_eq, hs.requestId_eq, hp]; exact h.inFlight_eq
  · rw [hs.allLoaded_eq, hs.requestId_eq]; exact h.loaded

theorem pageInv_step {type : JoinType} {c c1 : ListController} {e : Event}
    (h : PageInv type c) (hs : step c e = some c1) : PageInv type c1 := by
  cases e with
  | prepare =>
    simp only [step, ListController.prepare, Option.some.injEq] at hs
    subst hs; exact pageInv_loadMoreRows h
  | loadMoreRows =>
    simp only [step, Option.some.injEq] at hs
    subst hs; exact pageInv_loadMoreRows h
  | pageAnswered id answer => exact pageInv_pageAnswered h hs
  | rowClicked bot =>
    simp only [step] at hs
    by_cases hb : bot ∈ c.rows
    · rw [if_pos hb] at hs
      exact pageInv_of_samePage h (samePage_rowClicked hs)
    · rw [if_neg hb] at hs; cases hs
  | resolveAnswered bot parsed =>
    exact pageInv_of_samePage h (samePage_resolveAnswered hs)
  | process row =>
    simp only [step, Option.some.injEq] at hs
    subst hs; exact pageInv_of_samePage h (samePage_process c row)
  | joinConnected bot now =>
    simp only [step] at hs
    by_cases hb : c.joinBoxShown bot = true
    · rw [if_pos hb] at hs
      cases hs
      exact pageInv_of_samePage h (samePage_joinConnected c bot now)
    · rw [if_neg hb] at hs; cases hs

theorem pageInv_run {type : JoinType} (es : List Event) {c c1 : ListController}
    (h : PageInv type c) (hs : run c es = some c1) : PageInv type c1 := by
  induction es generalizing c with
  | nil =>
    simp only [run, Option.some.injEq] at hs
    subst hs; exact h
  | cons e es ih =>
    simp only [run] at hs
    cases he : step c e with
    | none => simp [he] at hs
    | some c2 =>
      simp only [he] at hs
      exact ih (pageInv_step h he) hs

theorem pageInv_of_reachable {type : JoinType} {c : ListController}
    (h : Reachable type c) : PageInv type c := by
  obtain ⟨es, hes⟩ := h
  exact pageInv_run es (pageInv_init type) hes

/-- C1 (single outstanding page request): in every reachable state of a
controller of either type at most one page request is in flight, `_requestId`
is non-zero exactly when one is, and `loadMoreRows` (hence `prepare`) called
while `_requestId` is non-zero returns the state as it was: no request is sent
and `_requestId`, the offset, the all-loaded flag, the rows and the row count
are unchanged. -/
theorem single_outstanding_page_request (type : JoinType) (c : ListController)
    (h : Reachable type c) :
    c.inFlight.length ≤ 1 ∧
    (c.requestId = 0 ↔ c.inFlight = []) ∧
    (c.requestId ≠ 0 →
      c.loadMoreRows = c ∧ c.prepare = c ∧
      step c Event.loadMoreRows = some c ∧ step c Event.prepare = some c) := by
  have hi := (pageInv_of_reachable h).inFlight_eq
  refine ⟨?_, ?_, ?_⟩
  · rw [hi]; split <;> simp
  · rw [hi]
    constructor
    · intro h0; rw [if_pos h0]
    · intro hnil
      by_contra h0
      rw [if_neg h0] at hnil
      cases hnil
  · intro h0
    have hl := loadMoreRows_of_busy c (Or.inl h0)
    exact ⟨hl, hl, by simp [step, hl], by simp [step, ListController.prepare, hl]⟩

/-- Witness for C1: a `Suggested` controller after `prepare` has its first page
request in flight, and a second `loadMoreRows` changes nothing. -/
theorem single_outstanding_page_request_witness :
    Reachable JoinType.Suggested (ListController.init JoinType.Suggested).prepare ∧
    (ListController.init JoinType.Suggested).prepare.requestId ≠ 0 ∧
    (ListController.init JoinType.Suggested).prepare.inFlight.length ≤ 1 ∧
    (ListController.init JoinType.Suggested).prepare.loadMoreRows =
      (ListController.init JoinType.Suggested).prepare :=
  have hr : Reachable JoinType.Suggested (ListController.init JoinType.Suggested).prepare :=
    ⟨[Event.prepare], rfl⟩
  have ht := single_outstanding_page_request JoinType.Suggested _ hr
  ⟨hr, by decide, ht.1, (ht.2.2 (by decide)).1⟩

/-! ## The all-loaded flag -/

theorem sameList_refl (c : ListController) : SameList c c := ⟨rfl, rfl⟩

theorem sameList_trans {a b c : ListController} (h1 : SameList a b) (h2 : SameList b c) :
    SameList a c :=
  ⟨h2.rows_eq.trans h1.rows_eq, h2.pageSent_eq.trans h1.pageSent_eq⟩

theorem sameList_openBox (c : ListController) (bot : PeerId) (state : ConnectedBotState) :
    SameList c (c.openBox bot state) := by
  unfold ListController.openBox
  split <;> exact ⟨rfl, rfl⟩

theorem sameList_resolved (c : ListController) (bot : PeerId)
    (state : Option ConnectedBotState) : SameList c (c.resolved bot state) := by
  unfold ListController.resolved
  cases state with
  | none =>
    simp only
    split
    · exact sameList_trans (b := _) (by exact ⟨rfl, rfl⟩) (sameList_openBox _ _ _)
    · exact ⟨rfl, rfl⟩
  | some s =>
    simp only
    split
    · exact sameList_trans (b := _) (by exact ⟨rfl, rfl⟩) (sameList_openBox _ _ _)
    · exact ⟨rfl, rfl⟩

theorem sameList_rowClicked {c c1 : ListController} {bot : PeerId}
    (h : c.rowClicked bot = some c1) : SameList c c1 := by
  unfold ListController.rowClicked at h
  cases hf : statesFind c.states bot with
  | none => simp [hf] at h
  | some st =>
    simp only [hf] at h
    by_cases hu : st.unresolved = true
    · rw [if_pos hu] at h
      by_cases hr : bot ∈ c.resolving
      · rw [if_pos hr] at h
        cases h
        exact sameList_refl c
      · rw [if_neg hr] at h
        cases h
        exact ⟨rfl, by simp [ListController.sendResolve, List.filter_append, Request.isPage]⟩
    · rw [if_neg hu] at h
      cases h
      exact sameList_trans (b := _) (by exact ⟨rfl, rfl⟩) (sameList_openBox _ _ _)

theorem sameList_resolveAnswered {c c1 : ListController} {bot : PeerId}
    {parsed : Option (List ConnectedBot)} (h : c.resolveAnswered bot parsed = some c1) :
    SameList c c1 := by
  unfold ListController.resolveAnswered at h
  by_cases hb : bot ∈ c.resolveInFlight
  · rw [if_pos hb] at h
    cases h
    exact sameList_trans (b := _) (by exact ⟨rfl, rfl⟩) (sameList_resolved _ _ _)
  · rw [if_neg hb] at h
    cases h

theorem pageSent_process (c : ListController) (row : ConnectedBot) :
    (c.process row).sent = c.sent := by
  unfold ListController.process
  split <;> rfl

/-- One event in a state where everything is loaded. -/
theorem allLoaded_step {type : JoinType} {c c1 : ListController} {e : Event}
    (h : PageInv type c) (hl : c.allLoaded = true) (hs : step c e = some c1) :
    c1.allLoaded = true ∧
    c1.sent.filter Request.isPage = c.sent.filter Request.isPage ∧
    ((∀ row, e ≠ Event.process row) → c1.rows = c.rows) := by
  cases e with
  | prepare =>
    simp only [step, ListController.prepare, loadMoreRows_of_busy c (Or.inr hl),
      Option.some.injEq] at hs
    subst hs; exact ⟨hl, rfl, fun _ => rfl⟩
  | loadMoreRows =>
    simp only [step, loadMoreRows_of_busy c (Or.inr hl), Option.some.injEq] at hs
    subst hs; exact ⟨hl, rfl, fun _ => rfl⟩
  | pageAnswered id answer =>
    have hf := (pageAnswered_some h hs).2.2.1
    rw [hl] at hf; cases hf
  | rowClicked bot =>
    simp only [step] at hs
    by_cases hb : bot ∈ c.rows
    · rw [if_pos hb] at hs
      have h1 := samePage_rowClicked hs
      have h2 := sameList_rowClicked hs
      exact ⟨h1.allLoaded_eq.trans hl, h2.pageSent_eq, fun _ => h2.rows_eq⟩
    · rw [if_neg hb] at hs; cases hs
  | resolveAnswered bot parsed =>
    have h1 := samePage_resolveAnswered hs
    have h2 := sameList_resolveAnswered hs
    exact ⟨h1.allLoaded_eq.trans hl, h2.pageSent_eq, fun _ => h2.rows_eq⟩
  | process row =>
    simp only [step, Option.some.injEq] at hs
    subst hs
    refine ⟨(samePage_process c row).allLoaded_eq.trans hl, ?_, ?_⟩
    · rw [pageSent_process]
    · intro hne; exact absurd rfl (hne row)
  | joinConnected bot now =>
    simp only [step] at hs
    by_cases hb : c.joinBoxShown bot = true
    · rw [if_pos hb] at hs
      cases hs
      exact ⟨hl, rfl, fun _ => rfl⟩
    · rw [if_neg hb] at hs; cases hs

theorem allLoaded_run {type : JoinType} (es : List Event) {c c1 : ListController}
    (h : PageInv type c) (hl : c.allLoaded = true) (hs : run c es = some c1) :
    c1.allLoaded = true ∧
    c1.sent.filter Request.isPage = c.sent.filter Request.isPage ∧
    ((∀ e ∈ es, ∀ row, e ≠ Event.process row) → c1.rows = c.rows) := by
  induction es generalizing c with
  | nil =>
    simp only [run, Option.some.injEq] at hs
    subst hs; exact ⟨hl, rfl, fun _ => rfl⟩
  | cons e es ih =>
    simp only [run] at hs
    cases he : step c e with
    | none => simp [he] at hs
    | some c2 =>
      simp only [he] at hs
      obtain ⟨a1, a2, a3⟩ := allLoaded_step h hl he
      obtain ⟨b1, b2, b3⟩ := ih (pageInv_step h he) a1 hs
      refine ⟨b1, b2.trans a2, ?_⟩
      intro hne
      rw [b3 (fun e1 he1 => hne e1 (List.mem_cons_of_mem _ he1)),
        a3 (hne e (List.mem_cons_self _ _))]

/-- C2 (the all-loaded flag is terminal): from a reachable state in which
`_allLoaded` is true, whatever events follow, the flag stays true, no page
request is in flight or sent any more, `loadMoreRows` returns the state as it
was, and if none of the events is `process` the list of rows is the same. -/
theorem allLoaded_terminal (type : JoinType) (c c1 : ListController) (es : List Event)
    (hr : Reachable type c) (hl : c.allLoaded = true) (hs : run c es = some c1) :
    c1.allLoaded = true ∧
    c1.inFlight = [] ∧
    c1.loadMoreRows = c1 ∧
    c1.sent.filter Request.isPage = c.sent.filter Request.isPage ∧
    ((∀ e ∈ es, ∀ row, e ≠ Event.process row) → c1.rows = c.rows) := by
  have hi := pageInv_of_reachable hr
  obtain ⟨a1, a2, a3⟩ := allLoaded_run es hi hl hs
  have hi1 := pageInv_run es hi hs
  refine ⟨a1, ?_, loadMoreRows_of_busy c1 (Or.inr a1), a2, a3⟩
  have h0 := hi1.loaded a1
  have := hi1.inFlight_eq
  rw [if_pos h0] at this
  exact this

/-- Witness for C2: after the last page, `loadMoreRows` and a click leave the
flag set and the rows as they were. -/
theorem allLoaded_terminal_witness :
    Reachable JoinType.Suggested exLastPage ∧
    exLastPage.allLoaded = true ∧
    ((run exLastPage [Event.loadMoreRows, Event.rowClicked 1]).getD exLastPage).allLoaded = true ∧
    ((run exLastPage [Event.loadMoreRows, Event.rowClicked 1]).getD exLastPage).rows
      = exLastPage.rows :=
  have hr : Reachable JoinType.Suggested exLastPage := ⟨exLastPageEvents, rfl⟩
  have ht := allLoaded_terminal JoinType.Suggested exLastPage
    ((run exLastPage [Event.loadMoreRows, Event.rowClicked 1]).getD exLastPage)
    [Event.loadMoreRows, Event.rowClicked 1] hr rfl rfl
  ⟨hr, rfl, ht.1, ht.2.2.2.2 (by
    intro e he row
    simp only [List.mem_cons, List.mem_singleton, List.not_mem_nil, or_false] at he
    rcases he with rfl | rfl <;> simp)⟩

/-! ## Which page request is sent next -/

/-- The handlers of a page answer send nothing. -/
theorem sent_pageAnswered {c c1 : ListController} {id : Nat} {answer : PageAnswer}
    (hs : c.pageAnswered id answer = some c1) : c1.sent = c.sent := by
  unfold ListController.pageAnswered at hs
  cases hf : c.inFlight.find? (fun p => p.1 = id) with
  | none => simp [hf] at hs
  | some p =>
    simp only [hf] at hs
    cases ht : c.type <;> cases answer <;> simp only [ht] at hs <;> cases hs
    · rw [joinedDone_eq]; split <;> rfl
    · rfl
    · rw [suggestedDone_eq]
    · rfl

/-- An event other than a page answer, in a state with no request in flight:
the offset stays, and either nothing was sent or the request of this state was
sent and is now in flight. -/
theorem nextRequest_step {c c1 : ListController} {e : Event}
    (hs : step c e = some c1) (hne : ∀ id answer, e ≠ Event.pageAnswered id answer) :
    c1.pageRequest = c.pageRequest ∧ c1.allLoaded = c.allLoaded ∧
    ((c1.sent.filter Request.isPage = c.sent.filter Request.isPage ∧
        c1.requestId = c.requestId) ∨
     (c1.sent.filter Request.isPage = c.sent.filter Request.isPage ++ [c.pageRequest] ∧
        c.requestId = 0 ∧ c.allLoaded = false ∧ c1.requestId ≠ 0)) := by
  have key : ∀ c2 : ListController, SamePage c c2 → c2.pageRequest = c.pageRequest := by
    intro c2 h2
    simp [ListController.pageRequest, ListController.joinedRequest,
      ListController.suggestedRequest, h2.type_eq, h2.offsetDate_eq, h2.offsetThing_eq]
  have hpage : (c.pageRequest).isPage = true := by
    unfold ListController.pageRequest ListController.joinedRequest
      ListController.suggestedRequest
    split <;> rfl
  have hload : c.loadMoreRows.pageRequest = c.pageRequest ∧
      c.loadMoreRows.allLoaded = c.allLoaded ∧
      ((c.loadMoreRows.sent.filter Request.isPage = c.sent.filter Request.isPage ∧
          c.loadMoreRows.requestId = c.requestId) ∨
       (c.loadMoreRows.sent.filter Request.isPage
            = c.sent.filter Request.isPage ++ [c.pageRequest] ∧
          c.requestId = 0 ∧ c.allLoaded = false ∧ c.loadMoreRows.requestId ≠ 0)) := by
    by_cases hb : c.requestId ≠ 0 ∨ c.allLoaded = true
    · rw [loadMoreRows_of_busy c hb]
      exact ⟨rfl, rfl, Or.inl ⟨rfl, rfl⟩⟩
    · have h1 : c.requestId = 0 := by
        by_contra h0; exact hb (Or.inl h0)
      have h2 : c.allLoaded = false := by
        cases hl : c.allLoaded with
        | false => rfl
        | true => exact absurd (Or.inr hl) hb
      rw [loadMoreRows_of_idle c h1 h2]
      refine ⟨?_, rfl, Or.inr ⟨?_, h1, h2, ?_⟩⟩
      · simp [ListController.pageRequest, ListController.joinedRequest,
          ListController.suggestedRequest]
      · simp [List.filter_append, hpage]
      · simp
  cases e with
  | prepare =>
    simp only [step, ListController.prepare, Option.some.injEq] at hs
    subst hs; exact hload
  | loadMoreRows =>
    simp only [step, Option.some.injEq] at hs
    subst hs; exact hload
  | pageAnswered id answer => exact absurd rfl (hne id answer)
  | rowClicked bot =>
    simp only [step] at hs
    by_cases hb : bot ∈ c.rows
    · rw [if_pos hb] at hs
      have h1 := samePage_rowClicked hs
      exact ⟨key _ h1, h1.allLoaded_eq,
        Or.inl ⟨(sameList_rowClicked hs).pageSent_eq, h1.requestId_eq⟩⟩
    · rw [if_neg hb] at hs; cases hs
  | resolveAnswered bot parsed =>
    have h1 := samePage_resolveAnswered hs
    exact ⟨key _ h1, h1.allLoaded_eq,
      Or.inl ⟨(sameList_resolveAnswered hs).pageSent_eq, h1.requestId_eq⟩⟩
  | process row =>
    simp only [step, Option.some.injEq] at hs
    subst hs
    have h1 := samePage_process c row
    exact ⟨key _ h1, h1.allLoaded_eq, Or.inl ⟨by rw [pageSent_process], h1.requestId_eq⟩⟩
  | joinConnected bot now =>
    simp only [step] at hs
    by_cases hb : c.joinBoxShown bot = true
    · rw [if_pos hb] at hs
      cases hs
      exact ⟨rfl, rfl, Or.inl ⟨rfl, rfl⟩⟩
    · rw [if_neg hb] at hs; cases hs

/-- Events other than page answers, from a state with no request in flight:
at most one page request is sent, and it is the request of the first state. -/
theorem nextRequest_run (es : List Event) {c c1 : ListController}
    (hs : run c es = some c1)
    (hne : ∀ e ∈ es, ∀ id answer, e ≠ Event.pageAnswered id answer)
    (h0 : c.requestId = 0) :
    c1.pageRequest = c.pageRequest ∧ c1.allLoaded = c.allLoaded ∧
    ((c1.sent.filter Request.isPage = c.sent.filter Request.isPage ∧ c1.requestId = 0) ∨
     (c1.sent.filter Request.isPage = c.sent.filter Request.isPage ++ [c.pageRequest] ∧
        c.allLoaded = false ∧ c1.requestId ≠ 0)) := by
  have gen : ∀ (es : List Event) (c c1 : ListController), run c es = some c1 →
      (∀ e ∈ es, ∀ id answer, e ≠ Event.pageAnswered id answer) →
      c1.pageRequest = c.pageRequest ∧ c1.allLoaded = c.allLoaded ∧
      ((c1.sent.filter Request.isPage = c.sent.filter Request.isPage ∧
          c1.requestId = c.requestId) ∨
       (c1.sent.filter Request.isPage = c.sent.filter Request.isPage ++ [c.pageRequest] ∧
          c.requestId = 0 ∧ c.allLoaded = false ∧ c1.requestId ≠ 0) ∨
       (c.requestId ≠ 0 ∧ c1.requestId ≠ 0 ∧
          c1.sent.filter Request.isPage = c.sent.filter Request.isPage)) := by
    intro es
    induction es with
    | nil =>
      intro c c1 hs _
      simp only [run, Option.some.injEq] at hs
      subst hs; exact ⟨rfl, rfl, Or.inl ⟨rfl, rfl⟩⟩
    | cons e es ih =>
      intro c c1 hs hne
      simp only [run] at hs
      cases he : step c e with
      | none => simp [he] at hs
      | some c2 =>
        simp only [he] at hs
        obtain ⟨a1, a2, a3⟩ := nextRequest_step he (hne e (List.mem_cons_self _ _))
        obtain ⟨b1, b2, b3⟩ := ih c2 c1 hs (fun e1 he1 => hne e1 (List.mem_cons_of_mem _ he1))
        refine ⟨b1.trans a1, b2.trans a2, ?_⟩
        rcases a3 with ⟨a31, a32⟩ | ⟨a31, a32, a33, a34⟩
        · rcases b3 with ⟨b31, b32⟩ | ⟨b31, b32, b33, b34⟩ | ⟨b31, b32, b33⟩
          · exact Or.inl ⟨b31.trans a31, b32.trans a32⟩
          · exact Or.inr (Or.inl
              ⟨by rw [b31, a31, a1], by rw [← a32, b32], by rw [← a2, b33], b34⟩)
          · exact Or.inr (Or.inr ⟨by rw [← a32]; exact b31, b32, b33.trans a31⟩)
        · rcases b3 with ⟨b31, b32⟩ | ⟨b31, b32, b33, b34⟩ | ⟨b31, b32, b33⟩
          · exact Or.inr (Or.inl ⟨b31.trans a31, a32, a33, by rw [b32]; exact a34⟩)
          · exact absurd b32 a34
          · exact Or.inr (Or.inl ⟨b33.trans a31, a32, a33, b32⟩)
  obtain ⟨g1, g2, g3⟩ := gen es c c1 hs hne
  refine ⟨g1, g2, ?_⟩
  rcases g3 with ⟨g31, g32⟩ | ⟨g31, _, g33, g34⟩ | ⟨g31, _, _⟩
  · exact Or.inl ⟨g31, g32.trans h0⟩
  · exact Or.inr ⟨g31, g33, g34⟩
  · exact absurd h0 g31

/-- The first page request: until a page request is sent the controller would
send the request of a fresh controller, and afterwards that request heads the
page requests sent. -/
theorem firstRequest_step {type : JoinType} {c c1 : ListController} {e : Event}
    (hi : PageInv type c) (hs : step c e = some c1)
    (h : (c.sent.filter Request.isPage = [] ∧
            c.pageRequest = (ListController.init type).pageRequest ∧ c.requestId = 0) ∨
         (c.sent.filter Request.isPage).head? = some (ListController.init type).pageRequest) :
    (c1.sent.filter Request.isPage = [] ∧
        c1.pageRequest = (ListController.init type).pageRequest ∧ c1.requestId = 0) ∨
    (c1.sent.filter Request.isPage).head? = some (ListController.init type).pageRequest := by
  by_cases hp : ∃ id answer, e = Event.pageAnswered id answer
  · obtain ⟨id, answer, rfl⟩ := hp
    have h1 := pageAnswered_some hi hs
    have h2 : c1.sent = c.sent := sent_pageAnswered hs
    rcases h with ⟨_, _, h0⟩ | h
    · exact absurd (h1.1.symm.trans h0) h1.2.1
    · right; rw [h2]; exact h
  · have hne : ∀ id answer, e ≠ Event.pageAnswered id answer := by
      intro id answer he; exact hp ⟨id, answer, he⟩
    obtain ⟨a1, _, a3⟩ := nextRequest_step hs hne
    rcases h with ⟨h1, h2, h3⟩ | h
    · rcases a3 with ⟨a31, a32⟩ | ⟨a31, _, _, _⟩
      · left; exact ⟨a31.trans h1, a1.trans h2, a32.trans h3⟩
      · right; rw [a31, h1, h2]; rfl
    · right
      rcases a3 with ⟨a31, _⟩ | ⟨a31, _, _, _⟩
      · rw [a31]; exact h
      · rw [a31]
        cases hl : c.sent.filter Request.isPage with
        | nil => rw [hl] at h; cases h
        | cons x l => rw [hl] at h; simpa using h

theorem firstRequest_reachable {type : JoinType} {c : ListController}
    (hr : Reachable type c) :
    (c.sent.filter Request.isPage = [] ∧
        c.pageRequest = (ListController.init type).pageRequest ∧ c.requestId = 0) ∨
    (c.sent.filter Request.isPage).head? = some (ListController.init type).pageRequest := by
  obtain ⟨es, hes⟩ := hr
  have gen : ∀ (es : List Event) (c c1 : ListController), PageInv type c →
      ((c.sent.filter Request.isPage = [] ∧
          c.pageRequest = (ListController.init type).pageRequest ∧ c.requestId = 0) ∨
        (c.sent.filter Request.isPage).head? = some (ListController.init type).pageRequest) →
      run c es = some c1 →
      ((c1.sent.filter Request.isPage = [] ∧
          c1.pageRequest = (ListController.init type).pageRequest ∧ c1.requestId = 0) ∨
        (c1.sent.filter Request.isPage).head? = some (ListController.init type).pageRequest) := by
    intro es
    induction es with
    | nil =>
      intro c c1 _ h hs
      simp only [run, Option.some.injEq] at hs
      subst hs; exact h
    | cons e es ih =>
      intro c c1 hi h hs
      simp only [run] at hs
      cases he : step c e with
      | none => simp [he] at hs
      | some c2 =>
        simp only [he] at hs
        exact ih c2 c1 (pageInv_step hi he) (firstRequest_step hi he h) hs
  exact gen es _ c (pageInv_init type) (Or.inl ⟨rfl, rfl, rfl⟩) hes

/-- What the `done` callback of a `Suggested` page request leaves behind. -/
theorem suggested_answer_fields {c c1 : ListController} {id : Nat}
    {data : SuggestedStarRefBots} (hi : PageInv JoinType.Suggested c)
    (hs : step c (Event.pageAnswered id (PageAnswer.suggestedStarRefBots data)) = some c1) :
    c1.rows = c.rows ++ data.suggested_bots.map (fun b => b.bot_id) ∧
    c1.sent = c.sent ∧ c1.requestId = 0 ∧
    c1.offsetThing = data.next_offset.getD c.offsetThing ∧
    c1.allLoaded = data.next_offset.isNone ∧
    c1.states = (data.suggested_bots.map suggestedRow).foldl
      (fun m b => statesEmplace m b.bot b.state) c.states := by
  obtain ⟨_, _, hl, _, hc⟩ := pageAnswered_some hi hs
  rcases hc with ⟨ht, _⟩ | ⟨_, ⟨data1, hd, hc1⟩ | ⟨hd, _⟩⟩
  · cases ht
  · cases hd
    rw [suggestedDone_eq] at hc1
    subst hc1
    simp [hl]
  · cases hd

/-- C3 (cursoring of the `Suggested` list): the first page request carries the
empty offset and limit 50; after a successful answer with a `next_offset` the
rows of the answer are appended and the next page request sent, by the next
`loadMoreRows` or after any other events, carries exactly that offset and
limit 50; after a successful answer without `next_offset` the rows of the
answer are appended, the all-loaded flag is set and no page request is sent any
more. -/
theorem suggested_cursoring :
    (ListController.init JoinType.Suggested).prepare.sent
      = [Request.getSuggestedStarRefBots true "" 50] ∧
    (∀ c r, Reachable JoinType.Suggested c →
      (c.sent.filter Request.isPage).head? = some r →
      r = Request.getSuggestedStarRefBots true "" 50) ∧
    (∀ c c1 id data, Reachable JoinType.Suggested c →
      step c (Event.pageAnswered id (PageAnswer.suggestedStarRefBots data)) = some c1 →
      c1.rows = c.rows ++ data.suggested_bots.map (fun b => b.bot_id) ∧
      c1.sent = c.sent ∧ c1.requestId = 0 ∧
      (∀ o, data.next_offset = some o →
        c1.allLoaded = false ∧
        c1.loadMoreRows.sent = c1.sent ++ [Request.getSuggestedStarRefBots true o 50] ∧
        ∀ es c2, run c1 es = some c2 →
          (∀ e ∈ es, ∀ id2 answer, e ≠ Event.pageAnswered id2 answer) →
          c2.sent.filter Request.isPage = c1.sent.filter Request.isPage ∨
          c2.sent.filter Request.isPage
            = c1.sent.filter Request.isPage ++ [Request.getSuggestedStarRefBots true o 50]) ∧
      (data.next_offset = none →
        c1.allLoaded = true ∧ c1.loadMoreRows = c1 ∧
        ∀ es c2, run c1 es = some c2 →
          c2.sent.filter Request.isPage = c1.sent.filter Request.isPage)) := by
  refine ⟨rfl, ?_, ?_⟩
  · intro c r hr hh
    rcases firstRequest_reachable hr with ⟨h1, _, _⟩ | h
    · rw [h1] at hh; cases hh
    · rw [h] at hh
      cases hh; rfl
  · intro c c1 id data hr hs
    have hi := pageInv_of_reachable hr
    have hi1 : PageInv JoinType.Suggested c1 := pageInv_step hi hs
    obtain ⟨f1, f2, f3, f4, f5, f6⟩ := suggested_answer_fields hi hs
    have hreq : ∀ o, c1.offsetThing = o →
        c1.pageRequest = Request.getSuggestedStarRefBots true o 50 := by
      intro o h4
      simp [ListController.pageRequest, ListController.suggestedRequest, hi1.type_eq, h4,
        kPerPage]
    refine ⟨f1, f2, f3, ?_, ?_⟩
    · intro o ho
      have hoff : c1.offsetThing = o := by rw [f4, ho]; rfl
      have hal : c1.allLoaded = false := by rw [f5, ho]; rfl
      refine ⟨hal, ?_, ?_⟩
      · rw [loadMoreRows_of_idle c1 f3 hal, hreq o hoff]
      · intro es c2 hrun hne
        obtain ⟨_, _, g3⟩ := nextRequest_run es hrun hne f3
        rw [hreq o hoff] at g3
        rcases g3 with ⟨g, _⟩ | ⟨g, _, _⟩
        · exact Or.inl g
        · exact Or.inr g
    · intro ho
      have hal : c1.allLoaded = true := by rw [f5, ho]; rfl
      refine ⟨hal, loadMoreRows_of_busy _ (Or.inr hal), ?_⟩
      intro es c2 hrun
      exact (allLoaded_run es hi1 hal hrun).2.1

/-- Witness for C3: the first request has the empty offset; after `exFirstPage`
its two rows are in the list and the next request carries `"page2"`. -/
theorem suggested_cursoring_witness :
    Reachable JoinType.Suggested (ListController.init JoinType.Suggested).prepare ∧
    ((ListController.init JoinType.Suggested).prepare.sent.filter Request.isPage).head?
      = some (Request.getSuggestedStarRefBots true "" 50) ∧
    step (ListController.init JoinType.Suggested).prepare
        (Event.pageAnswered 1 (PageAnswer.suggestedStarRefBots exFirstPage))
      = some (((ListController.init JoinType.Suggested).prepare.pageAnswered 1
          (PageAnswer.suggestedStarRefBots exFirstPage)).getD
            (ListController.init JoinType.Suggested)) ∧
    (((ListController.init JoinType.Suggested).prepare.pageAnswered 1
          (PageAnswer.suggestedStarRefBots exFirstPage)).getD
            (ListController.init JoinType.Suggested)).rows = [1, 2] ∧
    (((ListController.init JoinType.Suggested).prepare.pageAnswered 1
          (PageAnswer.suggestedStarRefBots exFirstPage)).getD
            (ListController.init JoinType.Suggested)).loadMoreRows.sent
      = [Request.getSuggestedStarRefBots true "" 50,
         Request.getSuggestedStarRefBots true "page2" 50] :=
  have hr : Reachable JoinType.Suggested (ListController.init JoinType.Suggested).prepare :=
    ⟨[Event.prepare], rfl⟩
  have h := suggested_cursoring.2.2 (ListController.init JoinType.Suggested).prepare
    (((ListController.init JoinType.Suggested).prepare.pageAnswered 1
        (PageAnswer.suggestedStarRefBots exFirstPage)).getD
          (ListController.init JoinType.Suggested))
    1 exFirstPage hr rfl
  ⟨hr, rfl, rfl, h.1, (h.2.2.2.1 "page2" rfl).2.1⟩

/-! ## Cursoring of the `Joined` list -/

/-- The `done` callback of the `Joined` request leaves `_offsetDate` and
`_offsetThing` as they were, whatever the page holds. -/
theorem joinedDone_keeps_offset (c : ListController) (parsed : List ConnectedBot) :
    (c.joinedDone parsed).offsetDate = c.offsetDate ∧
    (c.joinedDone parsed).offsetThing = c.offsetThing := by
  rw [joinedDone_eq]
  split <;> exact ⟨rfl, rfl⟩

/-- C4 (cursoring of the `Joined` list), evaluated: a `Joined` controller gets
the non-empty page `exJoinedPage` for its first request and is asked for more
rows.  The second request is the first one again, offset `(0, "")` with no
offset flag set, and the offset members are still `0` and empty. -/
theorem joined_second_request_repeats_first :
    (run (ListController.init JoinType.Joined)
      [Event.prepare,
       Event.pageAnswered 1 (PageAnswer.connectedStarRefBots exJoinedPage),
       Event.loadMoreRows]).map (fun c => (c.sent, c.offsetDate, c.offsetThing, c.rows))
      = some ([Request.getConnectedStarRefBots false false 0 "" 50,
               Request.getConnectedStarRefBots false false 0 "" 50], 0, "", [7, 8]) := by
  decide

/-! ## De-duplication in `process` -/

theorem process_of_absent (c : ListController) (row : ConnectedBot) (h : row.bot ∉ c.rows) :
    c.process row =
      { c with
          states := statesEmplace c.states row.bot row.state
          rows := row.bot :: c.rows } := by
  unfold ListController.process ListController.peerListFindRow
  simp [h, ListController.createRow, ListController.peerListPrependRow]

theorem process_of_present (c : ListController) (row : ConnectedBot) (h : row.bot ∈ c.rows) :
    c.process row = c := by
  unfold ListController.process ListController.peerListFindRow
  simp [h]

/-- C5 (de-duplication on cross-insertion): `process(row)` puts one row for
`row.bot` at the front of the list exactly when the list holds no row with that
id (recording its state with `emplace`), and otherwise returns the state as it
was, rows and stored states included; so a second `process` for the same bot
changes nothing, and a list without duplicate ids stays without duplicates. -/
theorem process_dedup (c : ListController) (row : ConnectedBot) :
    (c.process row).rows = (if row.bot ∈ c.rows then c.rows else row.bot :: c.rows) ∧
    (row.bot ∈ c.rows → c.process row = c) ∧
    (row.bot ∉ c.rows →
      (c.process row).states = statesEmplace c.states row.bot row.state ∧
      (c.process row).rows.count row.bot = 1) ∧
    (∀ again : ConnectedBot, again.bot = row.bot →
      (c.process row).process again = c.process row) ∧
    (c.rows.Nodup → (c.process row).rows.Nodup) := by
  by_cases h : row.bot ∈ c.rows
  · rw [process_of_present c row h]
    refine ⟨by rw [if_pos h], fun _ => rfl, fun h1 => absurd h h1, ?_, fun hn => hn⟩
    intro again ha
    exact process_of_present c again (by rw [ha]; exact h)
  · rw [process_of_absent c row h]
    refine ⟨by rw [if_neg h], fun h1 => absurd h1 h, fun _ => ⟨rfl, ?_⟩, ?_, ?_⟩
    · simp [List.count_cons, List.count_eq_zero_of_not_mem h]
    · intro again ha
      exact process_of_present _ again (by rw [ha]; exact List.mem_cons_self _ _)
    · intro hn
      exact List.nodup_cons.mpr ⟨h, hn⟩

/-- Witness for C5: a `Joined` list holding bots 7 and 8 gets bot 9 in front,
once, and is left alone by `process` for bot 8. -/
theorem process_dedup_witness :
    ({ type := JoinType.Joined, rows := [7, 8] } : ListController).rows.Nodup ∧
    (8 : PeerId) ∈ ({ type := JoinType.Joined, rows := [7, 8] } : ListController).rows ∧
    (9 : PeerId) ∉ ({ type := JoinType.Joined, rows := [7, 8] } : ListController).rows ∧
    (({ type := JoinType.Joined, rows := [7, 8] } : ListController).process
        { bot := 9, state := {} }).rows = [9, 7, 8] ∧
    (({ type := JoinType.Joined, rows := [7, 8] } : ListController).process
        { bot := 9, state := {} }).rows.Nodup ∧
    (({ type := JoinType.Joined, rows := [7, 8] } : ListController).process
        { bot := 8, state := {} })
      = ({ type := JoinType.Joined, rows := [7, 8] } : ListController) :=
  have h9 := process_dedup { type := JoinType.Joined, rows := [7, 8] } { bot := 9, state := {} }
  have h8 := process_dedup { type := JoinType.Joined, rows := [7, 8] } { bot := 8, state := {} }
  ⟨by decide, by decide, by decide, h9.1, h9.2.2.2.2 (by decide), h8.2.1 (by decide)⟩

/-! ## Failure of a page request -/

/-- Counterexample to C6 as stated: the first page request of a `Suggested`
controller fails.  The all-loaded flag, false before, is set by the `fail`
callback, and the next `loadMoreRows` sends nothing: the failed request is the
only one ever sent. -/
theorem suggested_failure_is_final :
    (ListController.init JoinType.Suggested).prepare.allLoaded = false ∧
    (run (ListController.init JoinType.Suggested)
      [Event.prepare, Event.pageAnswered 1 PageAnswer.error]).map
        (fun c => (c.allLoaded, c.requestId, c.sent, c.loadMoreRows.sent))
      = some (true, 0, [Request.getSuggestedStarRefBots true "" 50],
              [Request.getSuggestedStarRefBots true "" 50]) := by
  decide

/-- C6 as amended (failure of a page request): in a reachable state the failed
request is the one `loadMoreRows` sent from the present offset.  For a `Joined`
list the `fail` callback only clears the in-flight marker, so the next
`loadMoreRows` sends that request again.  For a `Suggested` list it clears the
marker and sets the all-loaded flag, rows and offset being left as they were,
so `loadMoreRows` sends nothing and no page request is sent any more. -/
theorem page_failure (type : JoinType) (c c1 : ListController) (id : Nat)
    (hr : Reachable type c)
    (hs : step c (Event.pageAnswered id PageAnswer.error) = some c1) :
    c.inFlight = [(id, c.pageRequest)] ∧ c.requestId = id ∧ c.allLoaded = false ∧
    (type = JoinType.Joined →
      c1 = { c with requestId := 0, inFlight := [] } ∧
      c1.loadMoreRows.sent = c.sent ++ [c.pageRequest]) ∧
    (type = JoinType.Suggested →
      c1 = { c with allLoaded := true, requestId := 0, inFlight := [] } ∧
      c1.loadMoreRows = c1 ∧
      ∀ es c2, run c1 es = some c2 →
        c2.sent.filter Request.isPage = c.sent.filter Request.isPage) := by
  have hi := pageInv_of_reachable hr
  have hi1 : PageInv type c1 := pageInv_step hi hs
  obtain ⟨h1, _, hl, h4, hc⟩ := pageAnswered_some hi hs
  refine ⟨h4, h1, hl, ?_, ?_⟩
  · intro ht
    rcases hc with ⟨_, ⟨parsed, hd, _⟩ | ⟨_, hc1⟩⟩ | ⟨ht2, _⟩
    · cases hd
    · have he : c1 = { c with requestId := 0, inFlight := [] } := by
        rw [hc1]; rfl
      refine ⟨he, ?_⟩
      have h0 : c1.requestId = 0 := by rw [he]
      have hl1 : c1.allLoaded = false := by rw [he]; exact hl
      rw [loadMoreRows_of_idle c1 h0 hl1, he]
      simp [ListController.pageRequest, ListController.joinedRequest,
        ListController.suggestedRequest]
    · rw [ht] at ht2; cases ht2
  · intro ht
    rcases hc with ⟨ht2, _⟩ | ⟨_, ⟨data, hd, _⟩ | ⟨_, hc1⟩⟩
    · rw [ht] at ht2; cases ht2
    · cases hd
    · have he : c1 = { c with allLoaded := true, requestId := 0, inFlight := [] } := by
        rw [hc1]; rfl
      have hal : c1.allLoaded = true := by rw [he]
      refine ⟨he, loadMoreRows_of_busy _ (Or.inr hal), ?_⟩
      intro es c2 hrun
      have h2 := (allLoaded_run es hi1 hal hrun).2.1
      rw [h2, he]

/-- Witness for C6 as amended: the first page request of a `Joined` controller
fails and `loadMoreRows` sends it again. -/
theorem page_failure_witness :
    Reachable JoinType.Joined (ListController.init JoinType.Joined).prepare ∧
    step (ListController.init JoinType.Joined).prepare
        (Event.pageAnswered 1 PageAnswer.error)
      = some { (ListController.init JoinType.Joined).prepare with
                requestId := 0, inFlight := [] } ∧
    ({ (ListController.init JoinType.Joined).prepare with
        requestId := 0, inFlight := [] } : ListController).loadMoreRows.sent
      = [Request.getConnectedStarRefBots false false 0 "" 50,
         Request.getConnectedStarRefBots false false 0 "" 50] :=
  have hr : Reachable JoinType.Joined (ListController.init JoinType.Joined).prepare :=
    ⟨[Event.prepare], rfl⟩
  have h := page_failure JoinType.Joined (ListController.init JoinType.Joined).prepare
    { (ListController.init JoinType.Joined).prepare with requestId := 0, inFlight := [] }
    1 hr rfl
  ⟨hr, rfl, (h.2.2.2.1 rfl).2⟩

/-! ## Lazy resolution -/

theorem openBox_eq (c : ListController) (bot : PeerId) (state : ConnectedBotState) :
    c.openBox bot state = { c with shown := c.shown ++ [boxFor c.type bot state] } := by
  unfold ListController.openBox boxFor
  split <;> rfl

theorem rowClicked_resolved (c : ListController) (bot : PeerId) (st : ConnectedBotState)
    (hf : statesFind c.states bot = some st) (hu : st.unresolved = false) :
    c.rowClicked bot =
      some { c with openOnResolve := none, shown := c.shown ++ [boxFor c.type bot st] } := by
  unfold ListController.rowClicked
  simp [hf, hu, openBox_eq]

theorem rowClicked_start (c : ListController) (bot : PeerId) (st : ConnectedBotState)
    (hf : statesFind c.states bot = some st) (hu : st.unresolved = true)
    (hr : bot ∉ c.resolving) :
    c.rowClicked bot =
      some { c with
              resolving := c.resolving ++ [bot]
              openOnResolve := some bot
              lastRequestId := c.lastRequestId + 1
              resolveInFlight := c.resolveInFlight ++ [bot]
              sent := c.sent ++ [Request.getConnectedStarRefBot bot] } := by
  unfold ListController.rowClicked
  simp [hf, hu, hr, ListController.sendResolve]

theorem rowClicked_busy (c : ListController) (bot : PeerId) (st : ConnectedBotState)
    (hf : statesFind c.states bot = some st) (hu : st.unresolved = true)
    (hr : bot ∈ c.resolving) : c.rowClicked bot = some c := by
  unfold ListController.rowClicked
  simp [hf, hu, hr]

theorem statesFind_assign (m : List (PeerId × ConnectedBotState)) (b : PeerId)
    (v : ConnectedBotState) : statesFind (statesAssign m b v) b = some v := by
  induction m with
  | nil => simp [statesAssign, statesFind]
  | cons p m ih =>
    obtain ⟨k, w⟩ := p
    by_cases hk : k = b
    · simp [statesAssign, statesFind, hk]
    · simp [statesAssign, statesFind, hk, ih]

theorem statesFind_assign_of_ne (m : List (PeerId × ConnectedBotState)) {b b1 : PeerId}
    (v : ConnectedBotState) (h : b1 ≠ b) :
    statesFind (statesAssign m b v) b1 = statesFind m b1 := by
  induction m with
  | nil => simp [statesAssign, statesFind, Ne.symm h]
  | cons p m ih =>
    obtain ⟨k, w⟩ := p
    by_cases hk : k = b
    · have hk1 : ¬ k = b1 := by rw [hk]; exact Ne.symm h
      simp [statesAssign, statesFind, hk, hk1, Ne.symm h]
    · by_cases hk1 : k = b1
      · subst hk1
        simp [statesAssign, statesFind, hk]
      · simp [statesAssign, statesFind, hk, hk1, ih]

/-- The callback `resolved`, field by field. -/
theorem resolved_eq (c : ListController) (bot : PeerId) (state : Option ConnectedBotState) :
    c.resolved bot state =
      { c with
          resolving := c.resolving.filter (fun b => b ≠ bot)
          states := statesAssign c.states bot (state.getD (statesAt c.states bot))
          shown :=
            if c.openOnResolve = some bot then
              c.shown ++ [boxFor c.type bot (state.getD (statesAt c.states bot))]
            else c.shown } := by
  unfold ListController.resolved
  cases state with
  | none =>
    simp only [Option.getD_none]
    by_cases h : c.openOnResolve = some bot
    · simp [h, openBox_eq, statesAt, statesFind_assign]
    · simp [h]
  | some s =>
    simp only [Option.getD_some]
    by_cases h : c.openOnResolve = some bot
    · simp [h, openBox_eq, statesAt, statesFind_assign]
    · simp [h]

theorem sameResolve_loadMoreRows (c : ListController) : SameResolve c c.loadMoreRows := by
  unfold ListController.loadMoreRows ListController.apiSend
  split
  · exact ⟨rfl, rfl, rfl⟩
  · split <;> exact ⟨rfl, rfl, rfl⟩

theorem sameResolve_pageAnswered {c c1 : ListController} {id : Nat} {answer : PageAnswer}
    (hs : c.pageAnswered id answer = some c1) : SameResolve c c1 := by
  unfold ListController.pageAnswered at hs
  cases hf : c.inFlight.find? (fun p => p.1 = id) with
  | none => simp [hf] at hs
  | some p =>
    simp only [hf] at hs
    cases ht : c.type <;> cases answer <;> simp only [ht] at hs <;> cases hs
    · rw [joinedDone_eq]; split <;> exact ⟨rfl, rfl, rfl⟩
    · exact ⟨rfl, rfl, rfl⟩
    · rw [suggestedDone_eq]; exact ⟨rfl, rfl, rfl⟩
    · exact ⟨rfl, rfl, rfl⟩

theorem sameResolve_process (c : ListController) (row : ConnectedBot) :
    SameResolve c (c.process row) := by
  unfold ListController.process
  split <;> exact ⟨rfl, rfl, rfl⟩

theorem resolveInv_of_same {c c1 : ListController} (h : ResolveInv c)
    (hs : SameResolve c c1) : ResolveInv c1 := by
  refine ⟨?_, ?_, ?_⟩
  · rw [hs.resolveInFlight_eq]; exact h.nodup
  · rw [hs.resolveInFlight_eq, hs.resolving_eq]; exact h.sub
  · rw [hs.resolveInFlight_eq, hs.openOnResolve_eq]; exact h.last

theorem getLast?_erase_of_ne {l : List PeerId} {b x : PeerId}
    (h : l.getLast? = some b) (hx : x ≠ b) : (l.erase x).getLast? = some b := by
  obtain ⟨ys, rfl⟩ := List.getLast?_eq_some_iff.mp h
  by_cases hm : x ∈ ys
  · rw [List.erase_append_left _ hm]; exact List.getLast?_concat _
  · rw [List.erase_append_right _ hm]
    have : [b].erase x = [b] := by
      simp [List.erase_cons, Ne.symm hx]
    rw [this]; exact List.getLast?_concat _

theorem resolveInv_rowClicked {c c1 : ListController} {bot : PeerId}
    (h : ResolveInv c) (hs : c.rowClicked bot = some c1) : ResolveInv c1 := by
  cases hf : statesFind c.states bot with
  | none => simp [ListController.rowClicked, hf] at hs
  | some st =>
    cases hu : st.unresolved with
    | false =>
      rw [rowClicked_resolved c bot st hf hu] at hs
      cases hs
      exact ⟨h.nodup, h.sub, fun b hb => by cases hb⟩
    | true =>
      by_cases hr : bot ∈ c.resolving
      · rw [rowClicked_busy c bot st hf hu hr] at hs
        cases hs; exact h
      · rw [rowClicked_start c bot st hf hu hr] at hs
        cases hs
        refine ⟨?_, ?_, ?_⟩
        · simp only
          rw [List.nodup_append]
          refine ⟨h.nodup, List.nodup_singleton _, ?_⟩
          intro a ha hb
          simp only [List.mem_singleton] at hb
          subst hb
          exact hr (h.sub _ ha)
        · intro b hb
          simp only [List.mem_append, List.mem_singleton] at hb ⊢
          rcases hb with hb | hb
          · exact Or.inl (h.sub b hb)
          · exact Or.inr hb
        · intro b hb _
          simp only [Option.some.injEq] at hb
          subst hb
          exact List.getLast?_concat _

theorem resolveInv_resolveAnswered {c c1 : ListController} {bot : PeerId}
    {parsed : Option (List ConnectedBot)} (h : ResolveInv c)
    (hs : c.resolveAnswered bot parsed = some c1) : ResolveInv c1 := by
  unfold ListController.resolveAnswered at hs
  by_cases hb : bot ∈ c.resolveInFlight
  · rw [if_pos hb, resolved_eq] at hs
    cases hs
    refine ⟨h.nodup.erase bot, ?_, ?_⟩
    · intro b hb1
      have := (h.nodup.mem_erase_iff).mp hb1
      simp only [List.mem_filter, decide_eq_true_eq]
      exact ⟨h.sub b this.2, this.1⟩
    · intro b ho hb1
      have := (h.nodup.mem_erase_iff).mp hb1
      exact getLast?_erase_of_ne (h.last b ho this.2) (Ne.symm this.1)
  · rw [if_neg hb] at hs; cases hs

theorem resolveInv_step {c c1 : ListController} {e : Event}
    (h : ResolveInv c) (hs : step c e = some c1) : ResolveInv c1 := by
  cases e with
  | prepare =>
    simp only [step, ListController.prepare, Option.some.injEq] at hs
    subst hs; exact resolveInv_of_same h (sameResolve_loadMoreRows c)
  | loadMoreRows =>
    simp only [step, Option.some.injEq] at hs
    subst hs; exact resolveInv_of_same h (sameResolve_loadMoreRows c)
  | pageAnswered id answer => exact resolveInv_of_same h (sameResolve_pageAnswered hs)
  | rowClicked bot =>
    simp only [step] at hs
    by_cases hb : bot ∈ c.rows
    · rw [if_pos hb] at hs; exact resolveInv_rowClicked h hs
    · rw [if_neg hb] at hs; cases hs
  | resolveAnswered bot parsed => exact resolveInv_resolveAnswered h hs
  | process row =>
    simp only [step, Option.some.injEq] at hs
    subst hs; exact resolveInv_of_same h (sameResolve_process c row)
  | joinConnected bot now =>
    simp only [step] at hs
    by_cases hb : c.joinBoxShown bot = true
    · rw [if_pos hb] at hs
      cases hs
      exact resolveInv_of_same h ⟨rfl, rfl, rfl⟩
    · rw [if_neg hb] at hs; cases hs

theorem resolveInv_of_reachable {type : JoinType} {c : ListController}
    (hr : Reachable type c) : ResolveInv c := by
  obtain ⟨es, hes⟩ := hr
  have gen : ∀ (es : List Event) (c c1 : ListController), ResolveInv c →
      run c es = some c1 → ResolveInv c1 := by
    intro es
    induction es with
    | nil =>
      intro c c1 h hs
      simp only [run, Option.some.injEq] at hs
      subst hs; exact h
    | cons e es ih =>
      intro c c1 h hs
      simp only [run] at hs
      cases he : step c e with
      | none => simp [he] at hs
      | some c2 =>
        simp only [he] at hs
        exact ih c2 c1 (resolveInv_step h he) hs
  have h0 : ResolveInv (ListController.init type) :=
    ⟨List.nodup_nil, fun b hb => (by cases hb), fun b hb _ => (by cases hb)⟩
  exact gen es _ c h0 hes

/-- What `loadMoreRows` sends: nothing, or the page request of the state. -/
theorem sent_loadMoreRows (c : ListController) :
    c.loadMoreRows.sent = c.sent ∨ c.loadMoreRows.sent = c.sent ++ [c.pageRequest] := by
  by_cases hb : c.requestId ≠ 0 ∨ c.allLoaded = true
  · rw [loadMoreRows_of_busy c hb]; exact Or.inl rfl
  · have h1 : c.requestId = 0 := by
      by_contra h0; exact hb (Or.inl h0)
    have h2 : c.allLoaded = false := by
      cases hl : c.allLoaded with
      | false => rfl
      | true => exact absurd (Or.inr hl) hb
    rw [loadMoreRows_of_idle c h1 h2]; exact Or.inr rfl

theorem pageRequest_isPage (c : ListController) : c.pageRequest.isPage = true := by
  unfold ListController.pageRequest ListController.joinedRequest
    ListController.suggestedRequest
  split <;> rfl

/-- An event that is not a click sends no `Resolve` request, puts none in
flight and adds no bot to `_resolving`. -/
theorem resolveRequests_step {c c1 : ListController} {e : Event}
    (hs : step c e = some c1) (hne : ∀ b, e ≠ Event.rowClicked b) :
    c1.sent.filter (fun r => !r.isPage) = c.sent.filter (fun r => !r.isPage) ∧
    (∀ b ∈ c1.resolveInFlight, b ∈ c.resolveInFlight) ∧
    (∀ b ∈ c1.resolving, b ∈ c.resolving) := by
  have hload : c.loadMoreRows.sent.filter (fun r => !r.isPage)
      = c.sent.filter (fun r => !r.isPage) := by
    rcases sent_loadMoreRows c with h | h
    · rw [h]
    · rw [h, List.filter_append]
      simp [pageRequest_isPage]
  cases e with
  | prepare =>
    simp only [step, ListController.prepare, Option.some.injEq] at hs
    subst hs
    have h := sameResolve_loadMoreRows c
    exact ⟨hload, fun b hb => by rw [← h.resolveInFlight_eq]; exact hb,
      fun b hb => by rw [← h.resolving_eq]; exact hb⟩
  | loadMoreRows =>
    simp only [step, Option.some.injEq] at hs
    subst hs
    have h := sameResolve_loadMoreRows c
    exact ⟨hload, fun b hb => by rw [← h.resolveInFlight_eq]; exact hb,
      fun b hb => by rw [← h.resolving_eq]; exact hb⟩
  | pageAnswered id answer =>
    have h := sameResolve_pageAnswered hs
    exact ⟨by rw [sent_pageAnswered hs],
      fun b hb => by rw [← h.resolveInFlight_eq]; exact hb,
      fun b hb => by rw [← h.resolving_eq]; exact hb⟩
  | rowClicked bot => exact absurd rfl (hne bot)
  | resolveAnswered bot parsed =>
    simp only [step, ListController.resolveAnswered] at hs
    by_cases hb : bot ∈ c.resolveInFlight
    · rw [if_pos hb, resolved_eq] at hs
      simp only [Option.some.injEq] at hs
      subst hs
      refine ⟨rfl, fun b hb1 => List.mem_of_mem_erase hb1, ?_⟩
      intro b hb1
      exact (List.mem_filter.mp hb1).1
    · rw [if_neg hb] at hs; cases hs
  | process row =>
    simp only [step, Option.some.injEq] at hs
    subst hs
    have h := sameResolve_process c row
    exact ⟨by rw [pageSent_process],
      fun b hb => by rw [← h.resolveInFlight_eq]; exact hb,
      fun b hb => by rw [← h.resolving_eq]; exact hb⟩
  | joinConnected bot now =>
    simp only [step] at hs
    by_cases hb : c.joinBoxShown bot = true
    · rw [if_pos hb] at hs
      cases hs
      exact ⟨rfl, fun b hb1 => hb1, fun b hb1 => hb1⟩
    · rw [if_neg hb] at hs; cases hs

/-- A click sends at most one request, and it is a `Resolve` request for the
bot of the clicked row. -/
theorem resolveRequests_click {c c1 : ListController} {bot : PeerId}
    (hs : step c (Event.rowClicked bot) = some c1) :
    c1.sent = c.sent ∨ c1.sent = c.sent ++ [Request.getConnectedStarRefBot bot] := by
  simp only [step] at hs
  by_cases hb : bot ∈ c.rows
  · rw [if_pos hb] at hs
    cases hf : statesFind c.states bot with
    | none => simp [ListController.rowClicked, hf] at hs
    | some st =>
      cases hu : st.unresolved with
      | false =>
        rw [rowClicked_resolved c bot st hf hu] at hs
        cases hs; exact Or.inl rfl
      | true =>
        by_cases hr : bot ∈ c.resolving
        · rw [rowClicked_busy c bot st hf hu hr] at hs
          cases hs; exact Or.inl rfl
        · rw [rowClicked_start c bot st hf hu hr] at hs
          cases hs; exact Or.inr rfl
  · rw [if_neg hb] at hs; cases hs

/-- Over a sequence of events the `Resolve` requests sent are requests for
clicked rows, at most one for each click, in the order of the clicks. -/
theorem resolveRequests_run (es : List Event) {c c1 : ListController}
    (hs : run c es = some c1) :
    ∃ clicked : List PeerId,
      clicked.Sublist (es.filterMap Event.clickedRow) ∧
      c1.sent.filter (fun r => !r.isPage)
        = c.sent.filter (fun r => !r.isPage)
          ++ clicked.map Request.getConnectedStarRefBot := by
  induction es generalizing c with
  | nil =>
    simp only [run, Option.some.injEq] at hs
    subst hs
    exact ⟨[], List.Sublist.refl _, by simp⟩
  | cons e es ih =>
    simp only [run] at hs
    cases he : step c e with
    | none => simp [he] at hs
    | some c2 =>
      simp only [he] at hs
      obtain ⟨l, hl1, hl2⟩ := ih hs
      by_cases hc : ∃ b, e = Event.rowClicked b
      · obtain ⟨b, rfl⟩ := hc
        simp only [List.filterMap_cons, Event.clickedRow]
        rcases resolveRequests_click he with h | h
        · exact ⟨l, List.Sublist.cons _ hl1, by rw [hl2, h]⟩
        · refine ⟨b :: l, List.Sublist.cons₂ _ hl1, ?_⟩
          rw [hl2, h, List.filter_append]
          simp [Request.isPage]
      · have hne : ∀ b, e ≠ Event.rowClicked b := fun b hb => hc ⟨b, hb⟩
        have h := (resolveRequests_step he hne).1
        refine ⟨l, ?_, by rw [hl2, h]⟩
        cases e with
        | rowClicked b => exact absurd rfl (hne b)
        | _ => simpa [List.filterMap_cons, Event.clickedRow] using hl1

/-- C7 (lazy resolution on demand, at most one request per bot): for a row
whose bot has the stored state `st`, a click on a resolved row sends nothing
and shows the box for the stored state at once; a click on an unresolved row
sends one `Resolve` request when the bot is not in `_resolving` and returns
the state as it was when it is; in every reachable state no bot has more
than one `Resolve` request in flight, each such bot being in `_resolving`.
`Resolve` requests are sent on demand only: an event that is not a click
sends no `Resolve` request, puts none in flight and adds no bot to
`_resolving`; over any sequence of events the `Resolve` requests sent are
requests for clicked rows, at most one for each click and in the order of the
clicks; and all `Resolve` requests sent so far came from clicks. -/
theorem lazy_resolution_on_demand (type : JoinType) (c : ListController) (bot : PeerId)
    (st : ConnectedBotState) (hr : Reachable type c)
    (hf : statesFind c.states bot = some st) :
    (st.unresolved = false →
      c.rowClicked bot =
        some { c with openOnResolve := none
                      shown := c.shown ++ [boxFor c.type bot st] }) ∧
    (st.unresolved = true → bot ∉ c.resolving →
      c.rowClicked bot =
        some { c with
                resolving := c.resolving ++ [bot]
                openOnResolve := some bot
                lastRequestId := c.lastRequestId + 1
                resolveInFlight := c.resolveInFlight ++ [bot]
                sent := c.sent ++ [Request.getConnectedStarRefBot bot] }) ∧
    (st.unresolved = true → bot ∈ c.resolving → c.rowClicked bot = some c) ∧
    (∀ b, c.resolveInFlight.count b ≤ 1) ∧
    (∀ b ∈ c.resolveInFlight, b ∈ c.resolving) ∧
    (∀ e c1, step c e = some c1 → (∀ b, e ≠ Event.rowClicked b) →
      c1.sent.filter (fun r => !r.isPage) = c.sent.filter (fun r => !r.isPage) ∧
      (∀ b ∈ c1.resolveInFlight, b ∈ c.resolveInFlight) ∧
      (∀ b ∈ c1.resolving, b ∈ c.resolving)) ∧
    (∀ es c1, run c es = some c1 →
      ∃ clicked : List PeerId,
        clicked.Sublist (es.filterMap Event.clickedRow) ∧
        c1.sent.filter (fun r => !r.isPage)
          = c.sent.filter (fun r => !r.isPage)
            ++ clicked.map Request.getConnectedStarRefBot) ∧
    (∀ es, run (ListController.init type) es = some c →
      ∃ clicked : List PeerId,
        clicked.Sublist (es.filterMap Event.clickedRow) ∧
        c.sent.filter (fun r => !r.isPage)
          = clicked.map Request.getConnectedStarRefBot) := by
  have hi := resolveInv_of_reachable hr
  refine ⟨rowClicked_resolved c bot st hf, rowClicked_start c bot st hf,
    rowClicked_busy c bot st hf, ?_, hi.sub, ?_, ?_, ?_⟩
  · intro b
    exact List.nodup_iff_count_le_one.mp hi.nodup b
  · intro e c1 hs hne
    exact resolveRequests_step hs hne
  · intro es c1 hs
    exact resolveRequests_run es hs
  · intro es hs
    obtain ⟨l, hl1, hl2⟩ := resolveRequests_run es hs
    exact ⟨l, hl1, by simpa [ListController.init] using hl2⟩

/-- Witness for C7: in `exLoaded` bot 1 is unresolved and not being resolved;
a click sends its `Resolve` request, a second click changes nothing, and
`process` for a new bot sends no `Resolve` request. -/
theorem lazy_resolution_on_demand_witness :
    Reachable JoinType.Suggested exLoaded ∧
    statesFind exLoaded.states 1 = some (suggestedRow
      { bot_id := 1, commission_permille := 100, duration_months := none }).state ∧
    ((exLoaded.rowClicked 1).map (fun c => (c.resolveInFlight, c.resolving)))
      = some ([1], [1]) ∧
    ((exLoaded.rowClicked 1).bind (fun c => c.rowClicked 1)) = exLoaded.rowClicked 1 ∧
    step exLoaded (Event.process { bot := 9, state := {} })
      = some (exLoaded.process { bot := 9, state := {} }) ∧
    (exLoaded.process { bot := 9, state := {} }).sent.filter (fun r => !r.isPage)
      = exLoaded.sent.filter (fun r => !r.isPage) :=
  have hr : Reachable JoinType.Suggested exLoaded := ⟨exLoadedEvents, rfl⟩
  have h := lazy_resolution_on_demand JoinType.Suggested exLoaded 1
    (suggestedRow { bot_id := 1, commission_permille := 100, duration_months := none }).state
    hr rfl
  ⟨hr, rfl, by rw [h.2.1 rfl (by decide)]; rfl, by rw [h.2.1 rfl (by decide)]; rfl, rfl,
    (h.2.2.2.2.2.1 (Event.process { bot := 9, state := {} })
      (exLoaded.process { bot := 9, state := {} }) rfl (by intro b hb; cases hb)).1⟩

/-! ## Completion of a lazy resolve -/

theorem statesFind_append (m : List (PeerId × ConnectedBotState)) (k b : PeerId)
    (v : ConnectedBotState) :
    statesFind (m ++ [(k, v)]) b
      = (statesFind m b).or (if k = b then some v else none) := by
  induction m with
  | nil => simp [statesFind]
  | cons p m ih =>
    obtain ⟨k1, w⟩ := p
    by_cases hk : k1 = b
    · simp [statesFind, hk]
    · simp [statesFind, hk, ih]

theorem statesFind_emplace (m : List (PeerId × ConnectedBotState)) (k b : PeerId)
    (v : ConnectedBotState) :
    statesFind (statesEmplace m k v) b
      = (statesFind m b).or (if k = b then some v else none) := by
  unfold statesEmplace
  cases hk : statesFind m k with
  | none => simp only []; exact statesFind_append m k b v
  | some w =>
    simp only []
    by_cases hb : k = b
    · subst hb; simp [hk]
    · simp [hb]

theorem statesFind_foldl_emplace (l : List ConnectedBot)
    (m : List (PeerId × ConnectedBotState)) (b : PeerId) :
    statesFind (l.foldl (fun m x => statesEmplace m x.bot x.state) m) b
      = (statesFind m b).or ((l.find? (fun x => x.bot = b)).map (fun x => x.state)) := by
  induction l generalizing m with
  | nil => simp
  | cons x l ih =>
    rw [List.foldl_cons, ih, statesFind_emplace]
    by_cases hx : x.bot = b
    · cases statesFind m b <;> simp [hx]
    · cases statesFind m b <;> simp [hx]

/-- Counterexample to C10 as stated: an answer lists bot 7 twice, first with
commission 100 and then with commission 200.  `createRow` runs for each entry
and stores the state with `emplace`, which keeps the entry made for the first:
the state stored for the bot of the second entry has commission 100, not 200. -/
theorem second_entry_keeps_first_state :
    (run (ListController.init JoinType.Suggested)
      [Event.prepare,
       Event.pageAnswered 1 (PageAnswer.suggestedStarRefBots
         { next_offset := none
           suggested_bots :=
             [{ bot_id := 7, commission_permille := 100, duration_months := none },
              { bot_id := 7, commission_permille := 200, duration_months := none }] })]).map
        (fun c => (statesFind c.states 7).map (fun s => s.program.commission))
      = some (some 100) ∧
    (suggestedRow { bot_id := 7, commission_permille := 200, duration_months := none }
      ).state.program.commission = 200 := by
  decide

/-- C10 as amended (program record of a suggested row): the state a suggested
row is made with has `commission = c mod 2^16`, `durationMonths = d mod 2^8`
(`d = 0` when absent), `unresolved = true`, `revoked = false` and an empty
link; both numbers are non-negative and equal the values of the server exactly
when `0 ≤ c ≤ 65535` and `0 ≤ d ≤ 255`.  `createRow` stores that state for the
bot unless a state is stored for it already, which it keeps; so after the
`done` callback the stored state of a bot is the one it had before, or else the
state made from the first entry of the answer for that bot. -/
theorem suggested_program_record (e : SuggestedBot) (c : ListController) :
    (suggestedRow e).bot = e.bot_id ∧
    ((suggestedRow e).state.program.commission : Int) = e.commission_permille % 2 ^ 16 ∧
    ((suggestedRow e).state.program.durationMonths : Int)
      = (e.duration_months.getD 0) % 2 ^ 8 ∧
    (suggestedRow e).state.unresolved = true ∧
    (suggestedRow e).state.revoked = false ∧
    (suggestedRow e).state.link = "" ∧
    (0 ≤ ((suggestedRow e).state.program.commission : Int) ∧
      ((suggestedRow e).state.program.commission : Int) < 2 ^ 16) ∧
    (0 ≤ ((suggestedRow e).state.program.durationMonths : Int) ∧
      ((suggestedRow e).state.program.durationMonths : Int) < 2 ^ 8) ∧
    (((suggestedRow e).state.program.commission : Int) = e.commission_permille ↔
      0 ≤ e.commission_permille ∧ e.commission_permille ≤ 65535) ∧
    (((suggestedRow e).state.program.durationMonths : Int) = e.duration_months.getD 0 ↔
      0 ≤ e.duration_months.getD 0 ∧ e.duration_months.getD 0 ≤ 255) ∧
    statesFind (c.appendCreated (suggestedRow e)).states e.bot_id
      = some ((statesFind c.states e.bot_id).getD (suggestedRow e).state) ∧
    (∀ data b, statesFind (c.suggestedDone data).states b
      = (statesFind c.states b).or
          ((data.suggested_bots.find? (fun x => x.bot_id = b)).map
            (fun x => (suggestedRow x).state))) := by
  have hc : ((suggestedRow e).state.program.commission : Int)
      = e.commission_permille % 2 ^ 16 := by
    simp only [suggestedRow, toUShort]
    exact Int.toNat_of_nonneg (Int.emod_nonneg _ (by norm_num))
  have hd : ((suggestedRow e).state.program.durationMonths : Int)
      = (e.duration_months.getD 0) % 2 ^ 8 := by
    simp only [suggestedRow, toUChar]
    exact Int.toNat_of_nonneg (Int.emod_nonneg _ (by norm_num))
  refine ⟨rfl, hc, hd, rfl, rfl, rfl, ?_, ?_, ?_, ?_, ?_, ?_⟩
  · rw [hc]; omega
  · rw [hd]; omega
  · rw [hc]; omega
  · rw [hd]; omega
  · rw [appendCreated_eq]
    simp only [statesFind_emplace]
    cases statesFind c.states e.bot_id <;> simp [suggestedRow]
  · intro data b
    rw [suggestedDone_eq]
    simp only [statesFind_foldl_emplace, List.find?_map, Option.map_map]
    rfl

/-! ## The row count -/

theorem rows_loadMoreRows (c : ListController) :
    c.loadMoreRows.rows = c.rows ∧ c.loadMoreRows.rowCount = c.rowCount ∧
    c.loadMoreRows.states = c.states ∧ c.loadMoreRows.shown = c.shown ∧
    c.loadMoreRows.connected = c.connected ∧ c.loadMoreRows.type = c.type := by
  unfold ListController.loadMoreRows ListController.apiSend
  split
  · exact ⟨rfl, rfl, rfl, rfl, rfl, rfl⟩
  · split <;> exact ⟨rfl, rfl, rfl, rfl, rfl, rfl⟩

/-- A page answer runs one of the four callbacks on the state without the
answered request. -/
theorem pageAnswered_cases {c c1 : ListController} {id : Nat} {answer : PageAnswer}
    (hs : c.pageAnswered id answer = some c1) :
    ∃ c0 : ListController,
      c0.rows = c.rows ∧ c0.rowCount = c.rowCount ∧ c0.states = c.states ∧
      c0.shown = c.shown ∧ c0.connected = c.connected ∧ c0.type = c.type ∧
      ((∃ parsed, c1 = c0.joinedDone parsed) ∨ c1 = c0.joinedFail ∨
       (∃ data, c1 = c0.suggestedDone data) ∨ c1 = c0.suggestedFail) := by
  unfold ListController.pageAnswered at hs
  cases hf : c.inFlight.find? (fun p => p.1 = id) with
  | none => simp [hf] at hs
  | some p =>
    simp only [hf] at hs
    refine ⟨{ c with inFlight := c.inFlight.erase p }, rfl, rfl, rfl, rfl, rfl, rfl, ?_⟩
    cases ht : c.type <;> cases answer <;> simp only [ht] at hs <;> cases hs
    · exact Or.inl ⟨_, rfl⟩
    · exact Or.inr (Or.inl rfl)
    · exact Or.inr (Or.inr (Or.inl ⟨_, rfl⟩))
    · exact Or.inr (Or.inr (Or.inr rfl))

/-- Every event but `process` keeps `_rowCount` equal to the number of rows:
the `done` callbacks assign it after they append, and nothing else changes the
rows. -/
theorem rowCount_step_of_not_process {c c1 : ListController} {e : Event}
    (h : c.rowCount = (c.rows.length : Int)) (hs : step c e = some c1)
    (hne : ∀ row, e ≠ Event.process row) : c1.rowCount = (c1.rows.length : Int) := by
  cases e with
  | prepare =>
    simp only [step, ListController.prepare, Option.some.injEq] at hs
    subst hs
    obtain ⟨h1, h2, _⟩ := rows_loadMoreRows c
    rw [h1, h2]; exact h
  | loadMoreRows =>
    simp only [step, Option.some.injEq] at hs
    subst hs
    obtain ⟨h1, h2, _⟩ := rows_loadMoreRows c
    rw [h1, h2]; exact h
  | pageAnswered id answer =>
    obtain ⟨c0, h1, h2, _, _, _, _, hc⟩ := pageAnswered_cases hs
    have h0 : c0.rowCount = (c0.rows.length : Int) := by rw [h1, h2]; exact h
    rcases hc with ⟨parsed, rfl⟩ | rfl | ⟨data, rfl⟩ | rfl
    · rw [joinedDone_eq]
      split
      · exact h0
      · rfl
    · exact h0
    · rw [suggestedDone_eq]
    · exact h0
  | rowClicked bot =>
    simp only [step] at hs
    by_cases hb : bot ∈ c.rows
    · rw [if_pos hb] at hs
      rw [(samePage_rowClicked hs).rowCount_eq, (sameList_rowClicked hs).rows_eq]
      exact h
    · rw [if_neg hb] at hs; cases hs
  | resolveAnswered bot parsed =>
    rw [(samePage_resolveAnswered hs).rowCount_eq, (sameList_resolveAnswered hs).rows_eq]
    exact h
  | process row => exact absurd rfl (hne row)
  | joinConnected bot now =>
    simp only [step] at hs
    by_cases hb : c.joinBoxShown bot = true
    · rw [if_pos hb] at hs
      cases hs
      exact h
    · rw [if_neg hb] at hs; cases hs

/-- The member `_rowCount` is not touched by `process`, whatever it does to the
rows. -/
theorem rowCount_process (c : ListController) (row : ConnectedBot) :
    (c.process row).rowCount = c.rowCount :=
  (samePage_process c row).rowCount_eq

/-- C11 (row count tracks the list), evaluated on `exJoinEvents`: the "my
programs" list is empty, the account joins bot 1 from the suggested list and
the panel hands the `connected` event to `process` of `_my`.  The row of bot 1
is now in the list of `_my`, but `_rowCount` is still 0 and the "my programs"
section is not shown. -/
theorem process_leaves_rowCount_behind :
    (InnerWidget.run InnerWidget.init exJoinEvents).map
        (fun w => (w.my.rows, w.my.rowCount, w.myShown, w.suggested.connected))
      = some ([1], 0, false, [{ bot := 1, state := exJoinedState }]) := by
  decide

/-! ## Every row has a state -/

theorem statesFind_foldl_isSome (l : List ConnectedBot)
    (m : List (PeerId × ConnectedBotState)) (b : PeerId)
    (h : (statesFind m b).isSome = true ∨ b ∈ l.map (fun x => x.bot)) :
    (statesFind (l.foldl (fun m x => statesEmplace m x.bot x.state) m) b).isSome = true := by
  rw [statesFind_foldl_emplace]
  rcases h with h | h
  · cases hm : statesFind m b with
    | none => rw [hm] at h; cases h
    | some v => rfl
  · obtain ⟨x, hx, hxb⟩ := List.mem_map.mp h
    have hf : (l.find? (fun x => decide (x.bot = b))).isSome = true := by
      rw [List.find?_isSome]
      exact ⟨x, hx, by simp [hxb]⟩
    cases hm : statesFind m b with
    | some v => rfl
    | none =>
      cases hl : l.find? (fun x => decide (x.bot = b)) with
      | none => rw [hl] at hf; cases hf
      | some y => rfl

theorem statesFind_assign_isSome (m : List (PeerId × ConnectedBotState)) (k b : PeerId)
    (v : ConnectedBotState) (h : (statesFind m b).isSome = true) :
    (statesFind (statesAssign m k v) b).isSome = true := by
  by_cases hk : b = k
  · subst hk; rw [statesFind_assign]; rfl
  · rw [statesFind_assign_of_ne m v hk]; exact h

/-- The rows and the states after an append of created rows. -/
theorem rowsHaveStates_append {c c1 : ListController} (l : List ConnectedBot)
    (h : RowsHaveStates c) (hr : c1.rows = c.rows ++ l.map (fun x => x.bot))
    (hst : c1.states = l.foldl (fun m x => statesEmplace m x.bot x.state) c.states) :
    RowsHaveStates c1 ∧ StatesKept c c1 := by
  constructor
  · intro b hb
    rw [hr, List.mem_append] at hb
    rw [hst]
    rcases hb with hb | hb
    · exact statesFind_foldl_isSome l _ b (Or.inl (h b hb))
    · exact statesFind_foldl_isSome l _ b (Or.inr hb)
  · intro b hb
    rw [hst]
    exact statesFind_foldl_isSome l _ b (Or.inl hb)

theorem rowsHaveStates_of_same {c c1 : ListController} (h : RowsHaveStates c)
    (hr : c1.rows = c.rows) (hst : c1.states = c.states) :
    RowsHaveStates c1 ∧ StatesKept c c1 := by
  constructor
  · intro b hb
    rw [hr] at hb; rw [hst]; exact h b hb
  · intro b hb
    rw [hst]; exact hb

theorem rowsHaveStates_assign {c c1 : ListController} (k : PeerId) (v : ConnectedBotState)
    (h : RowsHaveStates c) (hr : c1.rows = c.rows)
    (hst : c1.states = statesAssign c.states k v) :
    RowsHaveStates c1 ∧ StatesKept c c1 := by
  constructor
  · intro b hb
    rw [hr] at hb; rw [hst]
    exact statesFind_assign_isSome _ k b v (h b hb)
  · intro b hb
    rw [hst]
    exact statesFind_assign_isSome _ k b v hb

theorem states_rowClicked {c c1 : ListController} {bot : PeerId}
    (hs : c.rowClicked bot = some c1) : c1.states = c.states := by
  cases hf : statesFind c.states bot with
  | none => simp [ListController.rowClicked, hf] at hs
  | some st =>
    cases hu : st.unresolved with
    | false =>
      rw [rowClicked_resolved c bot st hf hu] at hs
      cases hs; rfl
    | true =>
      by_cases hr : bot ∈ c.resolving
      · rw [rowClicked_busy c bot st hf hu hr] at hs
        cases hs; rfl
      · rw [rowClicked_start c bot st hf hu hr] at hs
        cases hs; rfl

theorem rowClicked_isSome (c : ListController) (bot : PeerId)
    (h : (statesFind c.states bot).isSome = true) : (c.rowClicked bot).isSome = true := by
  cases hf : statesFind c.states bot with
  | none => rw [hf] at h; cases h
  | some st =>
    cases hu : st.unresolved with
    | false => rw [rowClicked_resolved c bot st hf hu]; rfl
    | true =>
      by_cases hr : bot ∈ c.resolving
      · rw [rowClicked_busy c bot st hf hu hr]; rfl
      · rw [rowClicked_start c bot st hf hu hr]; rfl

theorem rowContextMenu_isSome (c : ListController) (bot : PeerId)
    (h : (statesFind c.states bot).isSome = true) :
    (c.rowContextMenu bot).isSome = true := by
  unfold ListController.rowContextMenu
  cases hf : statesFind c.states bot with
  | none => rw [hf] at h; cases h
  | some st =>
    simp only []
    split <;> rfl

theorem rowsHaveStates_step {c c1 : ListController} {e : Event}
    (h : RowsHaveStates c) (hs : step c e = some c1) :
    RowsHaveStates c1 ∧ StatesKept c c1 := by
  cases e with
  | prepare =>
    simp only [step, ListController.prepare, Option.some.injEq] at hs
    subst hs
    obtain ⟨h1, _, h3, _⟩ := rows_loadMoreRows c
    exact rowsHaveStates_of_same h h1 h3
  | loadMoreRows =>
    simp only [step, Option.some.injEq] at hs
    subst hs
    obtain ⟨h1, _, h3, _⟩ := rows_loadMoreRows c
    exact rowsHaveStates_of_same h h1 h3
  | pageAnswered id answer =>
    obtain ⟨c0, h1, _, h3, _, _, _, hc⟩ := pageAnswered_cases hs
    rcases hc with ⟨parsed, rfl⟩ | rfl | ⟨data, rfl⟩ | rfl
    · rw [joinedDone_eq]
      split
      · exact rowsHaveStates_of_same h h1 h3
      · exact rowsHaveStates_append parsed h (by rw [← h1]) (by rw [← h3])
    · exact rowsHaveStates_of_same h h1 h3
    · rw [suggestedDone_eq]
      refine rowsHaveStates_append (data.suggested_bots.map suggestedRow) h ?_ ?_
      · simp [h1, List.map_map, Function.comp_def, suggestedRow]
      · simp [h3]
    · exact rowsHaveStates_of_same h h1 h3
  | rowClicked bot =>
    simp only [step] at hs
    by_cases hb : bot ∈ c.rows
    · rw [if_pos hb] at hs
      exact rowsHaveStates_of_same h (sameList_rowClicked hs).rows_eq (states_rowClicked hs)
    · rw [if_neg hb] at hs; cases hs
  | resolveAnswered bot parsed =>
    have hrows := (sameList_resolveAnswered hs).rows_eq
    simp only [step, ListController.resolveAnswered] at hs
    by_cases hb : bot ∈ c.resolveInFlight
    · rw [if_pos hb, resolved_eq] at hs
      simp only [Option.some.injEq] at hs
      exact rowsHaveStates_assign bot _ h hrows (by rw [← hs])
    · rw [if_neg hb] at hs; cases hs
  | process row =>
    simp only [step, Option.some.injEq] at hs
    subst hs
    by_cases hm : row.bot ∈ c.rows
    · rw [process_of_present c row hm]
      exact rowsHaveStates_of_same h rfl rfl
    · rw [process_of_absent c row hm]
      constructor
      · intro b hb
        simp only [List.mem_cons] at hb
        simp only [statesFind_emplace]
        rcases hb with hb | hb
        · subst hb
          cases statesFind c.states row.bot <;> simp
        · have := h b hb
          cases hf : statesFind c.states b with
          | none => rw [hf] at this; cases this
          | some v => rfl
      · intro b hb
        simp only [statesFind_emplace]
        cases hf : statesFind c.states b with
        | none => rw [hf] at hb; cases hb
        | some v => rfl
  | joinConnected bot now =>
    simp only [step] at hs
    by_cases hb : c.joinBoxShown bot = true
    · rw [if_pos hb] at hs
      cases hs
      exact rowsHaveStates_assign bot now h rfl rfl
    · rw [if_neg hb] at hs; cases hs

theorem rowsHaveStates_run (es : List Event) {c c1 : ListController}
    (h : RowsHaveStates c) (hs : run c es = some c1) :
    RowsHaveStates c1 ∧ StatesKept c c1 := by
  induction es generalizing c with
  | nil =>
    simp only [run, Option.some.injEq] at hs
    subst hs; exact ⟨h, fun _ hb => hb⟩
  | cons e es ih =>
    simp only [run] at hs
    cases he : step c e with
    | none => simp [he] at hs
    | some c2 =>
      simp only [he] at hs
      obtain ⟨a1, a2⟩ := rowsHaveStates_step h he
      obtain ⟨b1, b2⟩ := ih a1 hs
      exact ⟨b1, fun b hb => b2 b (a2 b hb)⟩

/-- C12 (every row has a state): in every reachable state each row of the list
has a state stored for its bot, so `rowClicked` and `rowContextMenu` pass their
assertion for every row of the list; whatever events follow, no stored state
is erased; and `createRow` keeps a state already stored for the bot, recording
the new one only when there is none. -/
theorem rows_have_states (type : JoinType) (c : ListController)
    (hr : Reachable type c) :
    (∀ b ∈ c.rows,
      (∃ st, statesFind c.states b = some st) ∧
      (c.rowClicked b).isSome = true ∧
      (step c (Event.rowClicked b)).isSome = true ∧
      (c.rowContextMenu b).isSome = true) ∧
    (∀ es c1, run c es = some c1 →
      ∀ b st, statesFind c.states b = some st → ∃ st1, statesFind c1.states b = some st1) ∧
    (∀ (bot : ConnectedBot) (st : ConnectedBotState),
      statesFind c.states bot.bot = some st →
      (c.createRow bot).1.states = c.states ∧ (c.createRow bot).2 = bot.bot) ∧
    (∀ bot : ConnectedBot, statesFind c.states bot.bot = none →
      statesFind (c.createRow bot).1.states bot.bot = some bot.state) := by
  obtain ⟨es0, hes0⟩ := hr
  have h0 : RowsHaveStates (ListController.init type) := by
    intro b hb; cases hb
  have hi : RowsHaveStates c := (rowsHaveStates_run es0 h0 hes0).1
  refine ⟨?_, ?_, ?_, ?_⟩
  · intro b hb
    have hsome := hi b hb
    refine ⟨Option.isSome_iff_exists.mp hsome, rowClicked_isSome c b hsome, ?_,
      rowContextMenu_isSome c b hsome⟩
    simp only [step, if_pos hb]
    exact rowClicked_isSome c b hsome
  · intro es c1 hrun b st hst
    have := (rowsHaveStates_run es hi hrun).2 b (by rw [hst]; rfl)
    exact Option.isSome_iff_exists.mp this
  · intro bot st hst
    simp [ListController.createRow, statesEmplace, hst]
  · intro bot hst
    simp [ListController.createRow, statesFind_emplace, hst]

/-- Witness for C12: in `exLoaded` the rows are those of bots 1 and 2; bot 2
has a state, its row can be clicked and its menu made, and a second `createRow`
for bot 2 keeps the stored state. -/
theorem rows_have_states_witness :
    Reachable JoinType.Suggested exLoaded ∧
    (2 : PeerId) ∈ exLoaded.rows ∧
    (exLoaded.rowClicked 2).isSome = true ∧
    (exLoaded.rowContextMenu 2).isSome = true ∧
    (exLoaded.createRow { bot := 2, state := {} }).1.states = exLoaded.states :=
  have hr : Reachable JoinType.Suggested exLoaded := ⟨exLoadedEvents, rfl⟩
  have h := rows_have_states JoinType.Suggested exLoaded hr
  have h2 : (2 : PeerId) ∈ exLoaded.rows := by decide
  ⟨hr, h2, (h.1 2 h2).2.1, (h.1 2 h2).2.2.2,
    (h.2.2.1 { bot := 2, state := {} }
      (suggestedRow { bot_id := 2, commission_permille := 250, duration_months := some 12 }
        ).state rfl).1⟩

/-! ## Which box a row opens -/

/-- What one event does to the type, the boxes shown and the `connected`
events: the type stays, at most one box is shown and it is the one `open`
chooses, and only a success reported by the join box fires an event. -/
theorem effects_step {c c1 : ListController} {e : Event} (hs : step c e = some c1) :
    c1.type = c.type ∧
    (c1.shown = c.shown ∨ ∃ bot st, c1.shown = c.shown ++ [boxFor c.type bot st]) ∧
    c1.connected = c.connected ++ e.fired := by
  cases e with
  | prepare =>
    simp only [step, ListController.prepare, Option.some.injEq] at hs
    subst hs
    obtain ⟨_, _, _, h4, h5, h6⟩ := rows_loadMoreRows c
    exact ⟨h6, Or.inl h4, by simp [Event.fired, h5]⟩
  | loadMoreRows =>
    simp only [step, Option.some.injEq] at hs
    subst hs
    obtain ⟨_, _, _, h4, h5, h6⟩ := rows_loadMoreRows c
    exact ⟨h6, Or.inl h4, by simp [Event.fired, h5]⟩
  | pageAnswered id answer =>
    obtain ⟨c0, _, _, _, h4, h5, h6, hc⟩ := pageAnswered_cases hs
    simp only [Event.fired, List.append_nil]
    rcases hc with ⟨parsed, rfl⟩ | rfl | ⟨data, rfl⟩ | rfl
    · rw [joinedDone_eq]
      split <;> exact ⟨h6, Or.inl h4, h5⟩
    · exact ⟨h6, Or.inl h4, h5⟩
    · rw [suggestedDone_eq]
      exact ⟨h6, Or.inl h4, h5⟩
    · exact ⟨h6, Or.inl h4, h5⟩
  | rowClicked bot =>
    simp only [step] at hs
    simp only [Event.fired, List.append_nil]
    by_cases hb : bot ∈ c.rows
    · rw [if_pos hb] at hs
      cases hf : statesFind c.states bot with
      | none => simp [ListController.rowClicked, hf] at hs
      | some st =>
        cases hu : st.unresolved with
        | false =>
          rw [rowClicked_resolved c bot st hf hu] at hs
          cases hs
          exact ⟨rfl, Or.inr ⟨bot, st, rfl⟩, rfl⟩
        | true =>
          by_cases hr : bot ∈ c.resolving
          · rw [rowClicked_busy c bot st hf hu hr] at hs
            cases hs
            exact ⟨rfl, Or.inl rfl, rfl⟩
          · rw [rowClicked_start c bot st hf hu hr] at hs
            cases hs
            exact ⟨rfl, Or.inl rfl, rfl⟩
    · rw [if_neg hb] at hs; cases hs
  | resolveAnswered bot parsed =>
    simp only [step, ListController.resolveAnswered] at hs
    simp only [Event.fired, List.append_nil]
    by_cases hb : bot ∈ c.resolveInFlight
    · rw [if_pos hb, resolved_eq] at hs
      simp only [Option.some.injEq] at hs
      subst hs
      refine ⟨rfl, ?_, rfl⟩
      by_cases ho : c.openOnResolve = some bot
      · right
        exact ⟨bot, (Resolve parsed).getD (statesAt c.states bot), by simp only [if_pos ho]⟩
      · left
        simp only [if_neg ho]
    · rw [if_neg hb] at hs; cases hs
  | process row =>
    simp only [step, Option.some.injEq] at hs
    subst hs
    simp only [Event.fired, List.append_nil]
    by_cases hm : row.bot ∈ c.rows
    · rw [process_of_present c row hm]
      exact ⟨rfl, Or.inl rfl, rfl⟩
    · rw [process_of_absent c row hm]
      exact ⟨rfl, Or.inl rfl, rfl⟩
  | joinConnected bot now =>
    simp only [step] at hs
    by_cases hb : c.joinBoxShown bot = true
    · rw [if_pos hb] at hs
      cases hs
      exact ⟨rfl, Or.inl rfl, rfl⟩
    · rw [if_neg hb] at hs; cases hs

theorem boxFor_joined (bot : PeerId) (state : ConnectedBotState) :
    boxFor JoinType.Joined bot state = Box.StarRefLinkBox bot state := by
  simp [boxFor]

theorem joinBoxShown_iff (c : ListController) (bot : PeerId) :
    c.joinBoxShown bot = true ↔ ∃ st, Box.JoinStarRefBox bot st ∈ c.shown := by
  unfold ListController.joinBoxShown
  rw [List.any_eq_true]
  constructor
  · rintro ⟨b, hb, hd⟩
    cases b with
    | StarRefLinkBox b0 st => cases hd
    | JoinStarRefBox b0 st =>
      simp only [decide_eq_true_eq] at hd
      subst hd
      exact ⟨st, hb⟩
  · rintro ⟨st, hb⟩
    exact ⟨_, hb, by simp⟩

/-- A `Joined` controller never shows a join box and never fires `connected`. -/
theorem joined_run (es : List Event) {c c1 : ListController}
    (ht : c.type = JoinType.Joined) (hc : c.connected = [])
    (hb : ∀ bot st, Box.JoinStarRefBox bot st ∉ c.shown)
    (hs : run c es = some c1) :
    c1.type = JoinType.Joined ∧ c1.connected = [] ∧
    ∀ bot st, Box.JoinStarRefBox bot st ∉ c1.shown := by
  induction es generalizing c with
  | nil =>
    simp only [run, Option.some.injEq] at hs
    subst hs; exact ⟨ht, hc, hb⟩
  | cons e es ih =>
    simp only [run] at hs
    cases he : step c e with
    | none => simp [he] at hs
    | some c2 =>
      simp only [he] at hs
      obtain ⟨e1, e2, e3⟩ := effects_step he
      have hfired : e.fired = [] := by
        cases e with
        | joinConnected bot now =>
          simp only [step] at he
          by_cases hj : c.joinBoxShown bot = true
          · obtain ⟨st, hst⟩ := (joinBoxShown_iff c bot).mp hj
            exact absurd hst (hb bot st)
          · rw [if_neg hj] at he; cases he
        | _ => rfl
      refine ih (e1.trans ht) (by rw [e3, hc, hfired]; rfl) ?_ hs
      intro bot st hm
      rcases e2 with e2 | ⟨b, s, e2⟩
      · rw [e2] at hm; exact hb bot st hm
      · rw [e2, ht, boxFor_joined, List.mem_append, List.mem_singleton] at hm
        rcases hm with hm | hm
        · exact hb bot st hm
        · cases hm

/-- C14 (which box a row opens): `open(bot, state)` shows the referral-link box
when the list is `Joined` or the link is not empty and the join box otherwise;
a success reported by the join box stores the new state for the bot and fires
one `connected` event with the bot and that state, no other event of the
controller fires one, and the panel hands the event to `process` of `_my`;
and a reachable `Joined` controller has shown no join box, has fired no
`connected` event and cannot be reported a success. -/
theorem which_box (type : JoinType) (c : ListController) (hr : Reachable type c) :
    (∀ bot state,
      c.openBox bot state =
        { c with shown := c.shown ++
            [if c.type = JoinType.Joined ∨ state.link.isEmpty = false then
               Box.StarRefLinkBox bot state
             else Box.JoinStarRefBox bot state] }) ∧
    (∀ bot now,
      statesFind (c.joinConnected bot now).states bot = some now ∧
      (∀ b, b ≠ bot →
        statesFind (c.joinConnected bot now).states b = statesFind c.states b) ∧
      (c.joinConnected bot now).connected = c.connected ++ [{ bot := bot, state := now }]) ∧
    (∀ e c1, step c e = some c1 → c1.connected = c.connected ++ e.fired) ∧
    (∀ (w w1 : InnerWidget) bot now,
      w.suggestedEvent (Event.joinConnected bot now) = some w1 →
      w1.suggested = w.suggested.joinConnected bot now ∧
      w1.my = w.my.process { bot := bot, state := now }) ∧
    (type = JoinType.Joined →
      c.connected = [] ∧
      (∀ bot state, Box.JoinStarRefBox bot state ∉ c.shown) ∧
      (∀ bot now, step c (Event.joinConnected bot now) = none)) := by
  refine ⟨?_, ?_, ?_, ?_, ?_⟩
  · intro bot state
    rw [openBox_eq]
    simp [boxFor]
  · intro bot now
    exact ⟨statesFind_assign _ _ _, fun b hb => statesFind_assign_of_ne _ _ hb, rfl⟩
  · intro e c1 hs
    exact (effects_step hs).2.2
  · intro w w1 bot now hs
    unfold InnerWidget.suggestedEvent at hs
    simp only [step] at hs
    by_cases hj : w.suggested.joinBoxShown bot = true
    · simp only [if_pos hj, Option.some.injEq] at hs
      subst hs
      simp [ListController.joinConnected]
    · simp only [if_neg hj] at hs
      cases hs
  · intro ht
    subst ht
    obtain ⟨es, hes⟩ := hr
    obtain ⟨_, h2, h3⟩ := joined_run es (c := ListController.init JoinType.Joined) rfl rfl
      (fun bot st hm => by cases hm) hes
    refine ⟨h2, h3, ?_⟩
    intro bot now
    simp only [step]
    by_cases hj : c.joinBoxShown bot = true
    · obtain ⟨st, hst⟩ := (joinBoxShown_iff c bot).mp hj
      exact absurd hst (h3 bot st)
    · rw [if_neg hj]

/-- Witness for C14: the `Joined` controller `exJoinedClicked` has shown the
link box of bot 7 and no join box, has fired nothing and cannot be reported a
success; in the panel `exBeforeJoin` the success of the join box of bot 1 is
stored by the suggested controller and handed to `process` of `_my`. -/
theorem which_box_witness :
    Reachable JoinType.Joined exJoinedClicked ∧
    exJoinedClicked.shown
      = [Box.StarRefLinkBox 7
          { program := { commission := 100, durationMonths := 6 }
            link := "t.me/bot7?start=ref" }] ∧
    exJoinedClicked.connected = [] ∧
    step exJoinedClicked (Event.joinConnected 7 exJoinedState) = none ∧
    exBeforeJoin.suggestedEvent (Event.joinConnected 1 exJoinedState) = some exAfterJoin ∧
    exAfterJoin.my = exBeforeJoin.my.process { bot := 1, state := exJoinedState } ∧
    exAfterJoin.my.rows = [1] :=
  have hr : Reachable JoinType.Joined exJoinedClicked := ⟨exJoinedClickedEvents, rfl⟩
  have h := which_box JoinType.Joined exJoinedClicked hr
  have hp : exBeforeJoin.suggestedEvent (Event.joinConnected 1 exJoinedState)
      = some exAfterJoin := by decide
  ⟨hr, by decide, (h.2.2.2.2 rfl).1, (h.2.2.2.2 rfl).2.2 7 exJoinedState, hp,
    (h.2.2.2.1 exBeforeJoin exAfterJoin 1 exJoinedState hp).2, by decide⟩

/-! ## Eligibility -/

/-- C13 (eligibility table of `Allowed`): the result is true iff the config
flag is on and the peer is a user that is the account itself or a bot whose
information the account can edit, or a broadcast channel in which the account
can post; so it is false with the flag off, for a basic group, for a user that
is neither, for a bot that cannot be edited, for a channel that is not a
broadcast channel and for a broadcast channel without the right to post. -/
theorem allowed_table (starrefJoinAllowed : Bool) (peer : PeerData) :
    (Allowed starrefJoinAllowed peer = true ↔
      starrefJoinAllowed = true ∧
      ((∃ isSelf isBot canEdit, peer = PeerData.user isSelf isBot canEdit ∧
          (isSelf = true ∨ (isBot = true ∧ canEdit = true))) ∨
       (∃ canPost, peer = PeerData.channel true canPost ∧ canPost = true))) ∧
    Allowed false peer = false ∧
    Allowed starrefJoinAllowed PeerData.chat = false ∧
    (∀ canEdit, Allowed starrefJoinAllowed (PeerData.user false false canEdit) = false) ∧
    (∀ isBot, Allowed starrefJoinAllowed (PeerData.user false isBot false) = false) ∧
    (∀ canPost, Allowed starrefJoinAllowed (PeerData.channel false canPost) = false) ∧
    (∀ isBroadcast, Allowed starrefJoinAllowed (PeerData.channel isBroadcast false) = false) ∧
    (∀ isBot canEdit, Allowed true (PeerData.user true isBot canEdit) = true) ∧
    Allowed true (PeerData.user false true true) = true ∧
    Allowed true (PeerData.channel true true) = true := by
  refine ⟨?_, ?_, ?_, ?_, ?_, ?_, ?_, ?_, rfl, rfl⟩
  · cases starrefJoinAllowed
    · simp [Allowed]
    · cases peer with
      | user a b c => cases a <;> cases b <;> cases c <;> simp [Allowed]
      | chat => simp [Allowed]
      | channel a b => cases a <;> cases b <;> simp [Allowed]
  · simp [Allowed]
  · cases starrefJoinAllowed <;> rfl
  · intro canEdit; cases starrefJoinAllowed <;> simp [Allowed]
  · intro isBot; cases starrefJoinAllowed <;> simp [Allowed]
  · intro canPost; cases starrefJoinAllowed <;> simp [Allowed]
  · intro isBroadcast; cases starrefJoinAllowed <;> simp [Allowed]
  · intro isBot canEdit; simp [Allowed]

end StarRef

namespace HistoryView

/-! ## Click dispatch of the userpic-suggestion card -/

/-- C8 (click dispatch of the userpic-suggestion card): without a session
window the handler does nothing; with one and the media loaded it opens the
photo for an outgoing message and starts `ShowUserpicSuggestion` for an
incoming one; with the media not loaded it starts the download exactly when
the photo is not loading.  The adopt flow is reached iff there is a window, the
media is loaded and the message is not outgoing. -/
theorem click_dispatch (out : Bool) (context : ClickContext) :
    (UserpicSuggestion.createViewLink out
        { context with sessionWindow := false } = ClickEffect.nothing) ∧
    (UserpicSuggestion.createViewLink true
        { context with sessionWindow := true, mediaLoaded := true }
      = ClickEffect.photoOpen) ∧
    (UserpicSuggestion.createViewLink false
        { context with sessionWindow := true, mediaLoaded := true }
      = ClickEffect.showUserpicSuggestion) ∧
    (UserpicSuggestion.createViewLink out
        { sessionWindow := true, mediaLoaded := false, photoLoading := false }
      = ClickEffect.photoSave) ∧
    (UserpicSuggestion.createViewLink out
        { sessionWindow := true, mediaLoaded := false, photoLoading := true }
      = ClickEffect.nothing) ∧
    (UserpicSuggestion.createViewLink out context = ClickEffect.photoSave ↔
      context.sessionWindow = true ∧ context.mediaLoaded = false ∧
        context.photoLoading = false) ∧
    (UserpicSuggestion.createViewLink out context = ClickEffect.photoOpen ↔
      context.sessionWindow = true ∧ context.mediaLoaded = true ∧ out = true) ∧
    (UserpicSuggestion.createViewLink out context = ClickEffect.showUserpicSuggestion ↔
      context.sessionWindow = true ∧ context.mediaLoaded = true ∧ out = false) := by
  obtain ⟨w, l, g⟩ := context
  cases out <;> cases w <;> cases l <;> cases g <;>
    simp [UserpicSuggestion.createViewLink]

end HistoryView
